import Mathlib

/-!
Verification development for the DirectXTex standard-swizzle unit
(DirectXTexSwizzle.cpp).  The C++ source is embedded shallowly: machine
integers become Nat with explicit reductions modulo 2 to the 32 where the
source uses uint32 arithmetic, pixel buffers become total functions from
byte addresses to byte values, and the three entry points become pure
functions returning a result code together with the destination images.
-/

/-- 2 to the 32, the modulus of uint32 arithmetic. -/
def U32 : Nat := 4294967296

/-- Result codes returned by the entry points.  sOk is S_OK, eInvalidArg is
E_INVALIDARG, eNotSupported is HRESULT_E_NOT_SUPPORTED, ePointer is
E_POINTER, eFail is E_FAIL, and eOutOfMemory stands for the failure code
produced by a failed destination-texture construction. -/
inductive HResult where
  | sOk
  | eInvalidArg
  | eNotSupported
  | ePointer
  | eFail
  | eOutOfMemory
deriving DecidableEq

/-- Modelled from the spec: the format-capability query consumed by the
core, providing the predicates isValid, isTypeless, isPlanar, isPalettized,
isCompressed and the derived bitsPerPixel.  The query itself lives outside
this unit, so a format is represented by the answers it gives. -/
structure FormatInfo where
  isValid : Bool
  isTypeless : Bool
  isPlanar : Bool
  isPalettized : Bool
  isCompressed : Bool
  bitsPerPixel : Nat
deriving DecidableEq

def IsValid (f : FormatInfo) : Bool := f.isValid

def IsTypeless (f : FormatInfo) : Bool := f.isTypeless

def IsPlanar (f : FormatInfo) : Bool := f.isPlanar

def IsPalettized (f : FormatInfo) : Bool := f.isPalettized

def IsCompressed (f : FormatInfo) : Bool := f.isCompressed

def BitsPerPixel (f : FormatInfo) : Nat := f.bitsPerPixel

/-- Modelled from the spec: a compressed format is handled in blocks of
4 by 4 pixels, one block being one addressable unit with its own byte
size, so a block holds sixteen pixels worth of bits. -/
def bytesPerBlock (f : FormatInfo) : Nat := 16 * f.bitsPerPixel / 8

/-- A single 2D pixel surface: format, extents, row pitch in bytes and the
pixel buffer.  The buffer is a total function from byte addresses to byte
values; a null pixel pointer is represented by none. -/
structure Image where
  format : FormatInfo
  width : Nat
  height : Nat
  rowPitch : Nat
  pixels : Option (Nat → Nat)

/-- The declared shape of a full texture.  The volume-versus-array
dimension flag is modelled from the spec as a Boolean. -/
structure TexMetadata where
  format : FormatInfo
  width : Nat
  height : Nat
  depth : Nat
  mipLevels : Nat
  isVolume : Bool

def IsVolumemap (md : TexMetadata) : Bool := md.isVolume

/-- The buffer of an image, with a null pointer read as the zero buffer.
Only used on paths where the pointer has already been checked. -/
def pixelsOf (img : Image) : Nat → Nat := img.pixels.getD (fun _ => 0)

/-- deposit_bits from the source (the portable fallback loop): scatters the
low-order bits of val into the set bit positions of mask.  The C loop
"for (bb = 1; mask != 0; bb += bb)" runs once per set bit of mask; fuel 32
covers every uint32 mask.  In C, -mask on uint32 is 2 to the 32 minus mask.
Written with Nat.rec and Bool tests so that kernel reduction is cheap. -/
def deposit_loop : Nat → Nat → Nat → Nat → Nat → Nat :=
  Nat.rec (motive := fun _ => Nat → Nat → Nat → Nat → Nat)
    (fun _ _ _ res => res)
    (fun _ ih val mask bb res =>
      if mask == 0 then res
      else
        ih val (mask &&& (mask - 1)) ((bb + bb) % U32)
          (if (val &&& bb) != 0 then res ||| (mask &&& ((U32 - mask) % U32)) else res))

def deposit_bits (val mask : Nat) : Nat := deposit_loop 32 val mask 1 0

/-- extract_bits from the source: gathers the bits of val at the set bit
positions of mask into a contiguous low-order result. -/
def extract_loop : Nat → Nat → Nat → Nat → Nat → Nat :=
  Nat.rec (motive := fun _ => Nat → Nat → Nat → Nat → Nat)
    (fun _ _ _ res => res)
    (fun _ ih val mask bb res =>
      if mask == 0 then res
      else
        ih val (mask &&& (mask - 1)) ((bb + bb) % U32)
          (if (val &&& (mask &&& ((U32 - mask) % U32))) != 0 then res ||| bb else res))

def extract_bits (val mask : Nat) : Nat := extract_loop 32 val mask 1 0

/-- The 2D x-axis mask from the source. -/
def xBytesMask2D : Nat := 0b1010101010101010

/-- The 2D y-axis mask from the source. -/
def yBytesMask2D : Nat := 0b0101010101010101

/-- The 3D x-axis mask from the source. -/
def xBytesMask3D : Nat := 0b1001001001001001

/-- The 3D y-axis mask from the source. -/
def yBytesMask3D : Nat := 0b0100100100100100

/-- The 3D z-axis mask from the source. -/
def zBytesMask3D : Nat := 0b0010010010010010

/-- The 2D swizzle index of the encode loop:
deposit_bits(x, xBytesMask) + deposit_bits(y, yBytesMask) on uint32. -/
def interleave2 (x y : Nat) : Nat :=
  (deposit_bits (x % U32) xBytesMask2D + deposit_bits (y % U32) yBytesMask2D) % U32

/-- The 3D swizzle index of the volume encode loop. -/
def interleave3 (x y z : Nat) : Nat :=
  (deposit_bits (x % U32) xBytesMask3D + deposit_bits (y % U32) yBytesMask3D +
    deposit_bits (z % U32) zBytesMask3D) % U32

/-- State of all destination (or source) slices, as a map from slice index
and byte address to byte value. -/
def Buffers : Type := Nat → Nat → Nat

/-- memcpy of n bytes into slice ds at offset doff, reading slice ss of src
at offset soff. -/
def memcpy2 (dst : Buffers) (ds doff : Nat) (src : Buffers) (ss soff n : Nat) : Buffers :=
  fun s a => if s = ds ∧ doff ≤ a ∧ a < doff + n then src ss (soff + (a - doff)) else dst s a

/-- One element copy, described by destination slice and offset and source
slice and offset; the byte count is shared by a whole loop. -/
structure CopyOp where
  dSlice : Nat
  doff : Nat
  sSlice : Nat
  soff : Nat
deriving DecidableEq

def applyOp (src : Buffers) (n : Nat) (dst : Buffers) (op : CopyOp) : Buffers :=
  memcpy2 dst op.dSlice op.doff src op.sSlice op.soff n

/-- Run a list of element copies in order. -/
def runCopies (src : Buffers) (n : Nat) (ops : List CopyOp) (dst : Buffers) : Buffers :=
  ops.foldl (applyOp src n) dst

/-- The copy op op writes the byte at slice s, address a. -/
def covers (n : Nat) (op : CopyOp) (s a : Nat) : Prop :=
  s = op.dSlice ∧ op.doff ≤ a ∧ a < op.doff + n

instance (n : Nat) (op : CopyOp) (s a : Nat) : Decidable (covers n op s a) := by
  unfold covers; infer_instance

/-- A fold that can stop with an error, modelling a loop body containing an
early return. -/
def foldlE (f : σ → α → Except ε σ) : σ → List α → Except ε σ
  | s, [] => Except.ok s
  | s, a :: l =>
    match f s a with
    | Except.error e => Except.error e
    | Except.ok s2 => foldlE f s2 l

/-- The per-plane transform loops of the source.  Encode: for every (x, y)
copy bytesPerPixel bytes from row-major offset y * rowPitchIn + x *
bytesPerPixel to swizzled offset interleave2 x y * bytesPerPixel.  Decode:
for every swizzled index copy to the row-major offset recovered through
extract_bits. -/
def planeTransform (sbuf : Buffers) (sSlice : Nat) (dbuf : Buffers) (dSlice : Nat)
    (toSwizzle : Bool) (bytesPerPixel width height rowPitchIn rowPitchOut : Nat) : Buffers :=
  if toSwizzle then
    (List.range height).foldl (fun dst y =>
      (List.range width).foldl (fun dst x =>
        memcpy2 dst dSlice (interleave2 x y * bytesPerPixel)
          sbuf sSlice (y * rowPitchIn + x * bytesPerPixel) bytesPerPixel) dst) dbuf
  else
    (List.range (width * height)).foldl (fun dst swizzleIndex =>
      memcpy2 dst dSlice
        (extract_bits (swizzleIndex % U32) yBytesMask2D * rowPitchOut +
          extract_bits (swizzleIndex % U32) xBytesMask2D * bytesPerPixel)
        sbuf sSlice (swizzleIndex * bytesPerPixel) bytesPerPixel) dbuf

/-- The volume encode loop body for one source slice z: the 3-way Morton
index over (x, y, z) is split into a destination slice and a within-plane
index using the metadata extents, as in the source. -/
def volumeEncodeSlice (sbuf : Buffers) (z : Nat) (dbuf : Buffers)
    (metaW metaH bytesPerPixel width height rowPitch : Nat) : Buffers :=
  (List.range height).foldl (fun dst y =>
    (List.range width).foldl (fun dst x =>
      memcpy2 dst ((interleave3 x y z / (metaW * metaH)) % U32)
        (((interleave3 x y z % (metaW * metaH)) % U32) * bytesPerPixel)
        sbuf z (y * rowPitch + x * bytesPerPixel) bytesPerPixel) dst) dbuf

/-- The volume decode loop body for one source slice z: each within-plane
index is recombined with z into the full 3-way index, which extract_bits
inverts into destination coordinates. -/
def volumeDecodeSlice (sbuf : Buffers) (z : Nat) (dbuf : Buffers)
    (bytesPerPixel width height rowPitch : Nat) : Buffers :=
  (List.range (width * height)).foldl (fun dst swizzleIndex =>
    memcpy2 dst (extract_bits ((z * width * height + swizzleIndex) % U32) zBytesMask3D)
      (extract_bits ((z * width * height + swizzleIndex) % U32) yBytesMask3D * rowPitch +
        extract_bits ((z * width * height + swizzleIndex) % U32) xBytesMask3D * bytesPerPixel)
      sbuf z (swizzleIndex * bytesPerPixel) bytesPerPixel) dbuf

def emptyFormat : FormatInfo :=
  { isValid := false, isTypeless := false, isPlanar := false, isPalettized := false,
    isCompressed := false, bitsPerPixel := 0 }

def noImage : Image :=
  { format := emptyFormat, width := 0, height := 0, rowPitch := 0, pixels := none }

/-- Placeholder image sequence returned on error paths; callers must not
trust the destination on a non-success result. -/
def noImages : Nat → Image := fun _ => noImage

/-- Modelled from the spec: the row pitch the container computes for a
newly constructed texture, width times the byte size of one element. -/
def computeRowPitch (f : FormatInfo) (w : Nat) : Nat := w * (BitsPerPixel f / 8)

/-- Modelled from the spec: the images exposed by a successfully
constructed destination texture: every slice has the requested format and
extents, the computed row pitch, and a zero-initialized pixel buffer. -/
def initImages (f : FormatInfo) (w h : Nat) : Nat → Image :=
  fun _ =>
    { format := f, width := w, height := h, rowPitch := computeRowPitch f w,
      pixels := some (fun _ => 0) }

/-- Modelled from the spec: ScratchImage construction of a 2D texture; the
Boolean argument selects whether the allocation succeeds.  On success the
container exposes a view of every slice; on failure it exposes nothing
(GetImages is null). -/
def Initialize2D (allocOk : Bool) (f : FormatInfo) (w h nimages mips : Nat) :
    Option (Nat → Image) :=
  if allocOk then some (initImages f w h) else none

/-- Modelled from the spec: ScratchImage construction of a 3D texture. -/
def Initialize3D (allocOk : Bool) (f : FormatInfo) (w h depth mips : Nat) :
    Option (Nat → Image) :=
  if allocOk then some (initImages f w h) else none

/-- Replace the pixel buffers of an image sequence with the given buffer
state. -/
def withBuffers (imgs : Nat → Image) (bufs : Buffers) : Nat → Image :=
  fun s => { imgs s with pixels := some (fun a => bufs s a) }

/-- DirectX::StandardSwizzle for one 2D image, translated line by line
from the source.  allocOk selects whether the Initialize2D call succeeds. -/
def StandardSwizzle (srcImage : Image) (toSwizzle : Bool) (allocOk : Bool) :
    HResult × (Nat → Image) :=
  if ¬ IsValid srcImage.format then (HResult.eInvalidArg, noImages)
  else if IsTypeless srcImage.format ∨ IsPlanar srcImage.format ∨ IsPalettized srcImage.format then
    (HResult.eNotSupported, noImages)
  else
    match Initialize2D allocOk srcImage.format srcImage.width srcImage.height 1 1 with
    | none => (HResult.eOutOfMemory, noImages)
    | some destImages =>
      match srcImage.pixels with
      | none => (HResult.ePointer, noImages)
      | some sptr =>
        match (destImages 0).pixels with
        | none => (HResult.ePointer, noImages)
        | some _ =>
          let bytesPerPixel := BitsPerPixel srcImage.format / 8
          let height := if IsCompressed srcImage.format then (srcImage.height + 3) / 4
            else srcImage.height
          let width := if IsCompressed srcImage.format then (srcImage.width + 3) / 4
            else srcImage.width
          let sbuf : Buffers := fun _ a => sptr a
          let dbuf : Buffers := fun s a => pixelsOf (destImages s) a
          let finalBuf := planeTransform sbuf 0 dbuf 0 toSwizzle bytesPerPixel width height
            srcImage.rowPitch (destImages 0).rowPitch
          (HResult.sOk, withBuffers destImages finalBuf)

/-- The body of the per-image loop of the array entry point: the null
checks of the source followed by the per-plane transform. -/
def arrayLoopBody (srcImages destImages : Nat → Image) (toSwizzle : Bool)
    (width height : Nat) (dst : Buffers) (imageIndex : Nat) : Except HResult Buffers :=
  match (srcImages imageIndex).pixels with
  | none => Except.error HResult.ePointer
  | some _ =>
    match (destImages imageIndex).pixels with
    | none => Except.error HResult.ePointer
    | some _ =>
      Except.ok (planeTransform (fun z a => pixelsOf (srcImages z) a) imageIndex dst imageIndex
        toSwizzle (BitsPerPixel (srcImages imageIndex).format / 8) width height
        (srcImages imageIndex).rowPitch (destImages imageIndex).rowPitch)

/-- The body of the per-slice loop of the volume entry point: the source
null check of the source followed by the encode or decode slice loop. -/
def volumeLoopBody (srcImages destImages : Nat → Image) (metadata : TexMetadata)
    (toSwizzle : Bool) (bytesPerPixel width height : Nat) (dst : Buffers) (z : Nat) :
    Except HResult Buffers :=
  match (srcImages z).pixels with
  | none => Except.error HResult.ePointer
  | some _ =>
    if toSwizzle then
      Except.ok (volumeEncodeSlice (fun z2 a => pixelsOf (srcImages z2) a) z dst
        metadata.width metadata.height bytesPerPixel width height (srcImages z).rowPitch)
    else
      Except.ok (volumeDecodeSlice (fun z2 a => pixelsOf (srcImages z2) a) z dst
        bytesPerPixel width height (destImages z).rowPitch)

/-- DirectX::StandardSwizzle for an image sequence, translated from the
source.  srcNull models a null srcImages pointer; srcImages is the array
it points at.  Note the source computes hr from Initialize2D but never
tests hr; construction failure is only caught by the GetImages null
check. -/
def StandardSwizzleArray (srcImages : Nat → Image) (srcNull : Bool) (nimages : Nat)
    (metadata : TexMetadata) (toSwizzle : Bool) (allocOk : Bool) : HResult × (Nat → Image) :=
  let init := Initialize2D allocOk (srcImages 0).format (srcImages 0).width
    (srcImages 0).height nimages 1
  if srcNull ∨ nimages = 0 ∨ ¬ IsValid metadata.format ∨ nimages > metadata.mipLevels ∨
      init.isNone then
    (HResult.eInvalidArg, noImages)
  else if IsVolumemap metadata ∨ IsTypeless metadata.format ∨ IsPlanar metadata.format ∨
      IsPalettized metadata.format then
    (HResult.eNotSupported, noImages)
  else if (srcImages 0).format ≠ metadata.format ∨ (srcImages 0).width ≠ metadata.width ∨
      (srcImages 0).height ≠ metadata.height then
    (HResult.eFail, noImages)
  else
    match init with
    | none => (HResult.eInvalidArg, noImages)
    | some destImages =>
      let height := if IsCompressed metadata.format then (metadata.height + 3) / 4
        else metadata.height
      let width := if IsCompressed metadata.format then (metadata.width + 3) / 4
        else metadata.width
      let dbuf0 : Buffers := fun s a => pixelsOf (destImages s) a
      match foldlE (arrayLoopBody srcImages destImages toSwizzle width height)
          dbuf0 (List.range nimages) with
      | Except.error e => (e, noImages)
      | Except.ok finalBuf => (HResult.sOk, withBuffers destImages finalBuf)

/-- DirectX::StandardSwizzle3D, translated from the source.  As in the
source, the metadata is rejected when IsVolumemap holds, hr from
Initialize3D is never tested, the within-plane split uses the metadata
extents, and the decode row pitch is read from destination slice z. -/
def StandardSwizzle3D (srcImages : Nat → Image) (srcNull : Bool) (depth : Nat)
    (metadata : TexMetadata) (toSwizzle : Bool) (allocOk : Bool) : HResult × (Nat → Image) :=
  let init := Initialize3D allocOk (srcImages 0).format (srcImages 0).width
    (srcImages 0).height depth 1
  if srcNull ∨ depth = 0 ∨ ¬ IsValid metadata.format ∨ depth > metadata.depth ∨
      init.isNone then
    (HResult.eInvalidArg, noImages)
  else if IsVolumemap metadata ∨ IsTypeless metadata.format ∨ IsPlanar metadata.format ∨
      IsPalettized metadata.format then
    (HResult.eNotSupported, noImages)
  else if (srcImages 0).format ≠ metadata.format ∨ (srcImages 0).width ≠ metadata.width ∨
      (srcImages 0).height ≠ metadata.height then
    (HResult.eFail, noImages)
  else
    match init with
    | none => (HResult.eInvalidArg, noImages)
    | some destImages =>
      let height := if IsCompressed metadata.format then (metadata.height + 3) / 4
        else metadata.height
      let width := if IsCompressed metadata.format then (metadata.width + 3) / 4
        else metadata.width
      let bytesPerPixel := BitsPerPixel (srcImages 0).format / 8
      let dbuf0 : Buffers := fun s a => pixelsOf (destImages s) a
      match foldlE (volumeLoopBody srcImages destImages metadata toSwizzle bytesPerPixel
          width height) dbuf0 (List.range depth) with
      | Except.error e => (e, noImages)
      | Except.ok finalBuf => (HResult.sOk, withBuffers destImages finalBuf)

/-! ### Proof-layer specifications of the bit loops -/

/-- The lowest-set-bit expression of the loops: mask and minus-mask on
uint32. -/
def lowBit (m : Nat) : Nat := m &&& ((U32 - m) % U32)

/-- The clear-lowest-set-bit expression of the loops. -/
def dropLow (m : Nat) : Nat := m &&& (m - 1)

/-- Number of set bits, by binary recursion. -/
def bitCount (m : Nat) : Nat :=
  if h : m = 0 then 0 else m % 2 + bitCount (m / 2)
decreasing_by omega

/-- Fueled, fast-evaluating popcount; agrees with bitCount below 2 to the
fuel. -/
def popcountF : Nat → Nat → Nat :=
  Nat.rec (motive := fun _ => Nat → Nat)
    (fun _ => 0)
    (fun _ ih m => if m == 0 then 0 else m % 2 + ih (m / 2))

/-- popcount of a 32-bit value. -/
def popcount (m : Nat) : Nat := popcountF 32 m

/-- Mathematical specification of deposit_bits, by binary recursion on the
mask with explicit fuel: the lowest mask bit receives the lowest value
bit. -/
def depSpecF : Nat → Nat → Nat → Nat
  | 0, _, _ => 0
  | fuel + 1, v, m =>
    if m = 0 then 0
    else if m % 2 = 1 then v % 2 + 2 * depSpecF fuel (v / 2) (m / 2)
    else 2 * depSpecF fuel v (m / 2)

def depSpec (v m : Nat) : Nat := depSpecF 32 v m

/-- Mathematical specification of extract_bits. -/
def extSpecF : Nat → Nat → Nat → Nat
  | 0, _, _ => 0
  | fuel + 1, v, m =>
    if m = 0 then 0
    else if m % 2 = 1 then v % 2 + 2 * extSpecF fuel (v / 2) (m / 2)
    else extSpecF fuel (v / 2) (m / 2)

def extSpec (v m : Nat) : Nat := extSpecF 32 v m

/-! ### Copy-operation lists describing the loops -/

/-- The element copies performed by the plane encode loop, in loop order. -/
def planeEncodeOps (dSlice sSlice w h bpp rowPitch : Nat) : List CopyOp :=
  (List.range h).flatMap (fun y => (List.range w).map (fun x =>
    { dSlice := dSlice, doff := interleave2 x y * bpp,
      sSlice := sSlice, soff := y * rowPitch + x * bpp }))

/-- The element copies performed by the plane decode loop, in loop order. -/
def planeDecodeOps (dSlice sSlice w h bpp rowPitchOut : Nat) : List CopyOp :=
  (List.range (w * h)).map (fun idx =>
    { dSlice := dSlice,
      doff := extract_bits (idx % U32) yBytesMask2D * rowPitchOut +
        extract_bits (idx % U32) xBytesMask2D * bpp,
      sSlice := sSlice, soff := idx * bpp })

/-- The element copies performed by the volume encode loop for source
slice z, in loop order. -/
def volumeEncodeSliceOps (z metaW metaH bpp w h rowPitch : Nat) : List CopyOp :=
  (List.range h).flatMap (fun y => (List.range w).map (fun x =>
    { dSlice := (interleave3 x y z / (metaW * metaH)) % U32,
      doff := ((interleave3 x y z % (metaW * metaH)) % U32) * bpp,
      sSlice := z, soff := y * rowPitch + x * bpp }))

/-- The element copies performed by the volume decode loop for source
slice z, in loop order. -/
def volumeDecodeSliceOps (z bpp w h rowPitch : Nat) : List CopyOp :=
  (List.range (w * h)).map (fun idx =>
    { dSlice := extract_bits ((z * w * h + idx) % U32) zBytesMask3D,
      doff := extract_bits ((z * w * h + idx) % U32) yBytesMask3D * rowPitch +
        extract_bits ((z * w * h + idx) % U32) xBytesMask3D * bpp,
      sSlice := z, soff := idx * bpp })

/-- All copies of the volume encode direction across depth slices. -/
def volumeEncodeOps (depth metaW metaH bpp w h rowPitch : Nat) : List CopyOp :=
  (List.range depth).flatMap (fun z => volumeEncodeSliceOps z metaW metaH bpp w h rowPitch)

/-- All copies of the volume decode direction across depth slices. -/
def volumeDecodeOps (depth bpp w h rowPitch : Nat) : List CopyOp :=
  (List.range depth).flatMap (fun z => volumeDecodeSliceOps z bpp w h rowPitch)

/-! ### Concrete instances used by counterexamples and witnesses -/

/-- A valid, uncompressed, one-byte-per-pixel format. -/
def fmtU8 : FormatInfo :=
  { isValid := true, isTypeless := false, isPlanar := false, isPalettized := false,
    isCompressed := false, bitsPerPixel := 8 }

/-- A valid block-compressed format reported at 4 bits per pixel, as BC1
is by the format table. -/
def fmtBC1 : FormatInfo :=
  { isValid := true, isTypeless := false, isPlanar := false, isPalettized := false,
    isCompressed := true, bitsPerPixel := 4 }

/-- A valid but typeless format. -/
def fmtTypeless : FormatInfo :=
  { isValid := true, isTypeless := true, isPlanar := false, isPalettized := false,
    isCompressed := false, bitsPerPixel := 8 }

def zeroBuf : Nat → Nat := fun _ => 0

/-- The 2 by 1 source plane of the round-trip counterexample: pixel (0,0)
holds byte 5, pixel (1,0) holds byte 7. -/
def c1src : Nat → Nat := fun a => if a = 0 then 5 else if a = 1 then 7 else 0

def c1img : Image :=
  { format := fmtU8, width := 2, height := 1, rowPitch := 2, pixels := some c1src }

/-- A 1 by 1 single-slice source for exercising the 3D entry point. -/
def oneImg : Image :=
  { format := fmtU8, width := 1, height := 1, rowPitch := 1, pixels := some zeroBuf }

/-- Volume-shaped metadata for a 1 by 1 by 1 texture. -/
def mdVolume : TexMetadata :=
  { format := fmtU8, width := 1, height := 1, depth := 1, mipLevels := 1, isVolume := true }

/-- The same metadata with the volume flag cleared. -/
def mdFlat : TexMetadata :=
  { format := fmtU8, width := 1, height := 1, depth := 1, mipLevels := 1, isVolume := false }

/-- A 4 by 4 BC1 image (one compressed block). -/
def bc1Img : Image :=
  { format := fmtBC1, width := 4, height := 4, rowPitch := 4, pixels := some zeroBuf }

/-- Flat metadata matching bc1Img. -/
def mdBC1 : TexMetadata :=
  { format := fmtBC1, width := 4, height := 4, depth := 1, mipLevels := 1, isVolume := false }

/-! ### Basic bit arithmetic -/

theorem and_decomp (v m : Nat) :
    v &&& m = 2 * (v / 2 &&& m / 2) + (if v % 2 = 1 ∧ m % 2 = 1 then 1 else 0) := by
  have h1 := Nat.div_add_mod (v &&& m) 2
  have h2 : (v &&& m) / 2 = v / 2 &&& m / 2 := Nat.and_div_two
  have h3 : (v &&& m) % 2 = 1 ↔ v % 2 = 1 ∧ m % 2 = 1 := Nat.and_mod_two_eq_one
  have h4 : (v &&& m) % 2 < 2 := Nat.mod_lt _ (by omega)
  by_cases hc : v % 2 = 1 ∧ m % 2 = 1
  · have h5 := h3.mpr hc
    simp only [if_pos hc]
    omega
  · have h5 : ¬ ((v &&& m) % 2 = 1) := fun h => hc (h3.mp h)
    simp only [if_neg hc]
    omega

theorem or_decomp (v m : Nat) :
    v ||| m = 2 * (v / 2 ||| m / 2) + (if v % 2 = 1 ∨ m % 2 = 1 then 1 else 0) := by
  have h1 := Nat.div_add_mod (v ||| m) 2
  have h2 : (v ||| m) / 2 = v / 2 ||| m / 2 := Nat.or_div_two
  have h3 : (v ||| m) % 2 = 1 ↔ v % 2 = 1 ∨ m % 2 = 1 := Nat.or_mod_two_eq_one
  have h4 : (v ||| m) % 2 < 2 := Nat.mod_lt _ (by omega)
  by_cases hc : v % 2 = 1 ∨ m % 2 = 1
  · have h5 := h3.mpr hc
    simp only [if_pos hc]
    omega
  · have h5 : ¬ ((v ||| m) % 2 = 1) := fun h => hc (h3.mp h)
    simp only [if_neg hc]
    omega

theorem lor_eq_add_of_and_eq_zero (x y : Nat) (h : x &&& y = 0) : x ||| y = x + y := by
  induction x using Nat.strongRecOn generalizing y with
  | _ x ih =>
    rcases Nat.eq_zero_or_pos x with hx | hx
    · subst hx; simp
    · have h2 : x / 2 &&& y / 2 = 0 := by
        rw [← Nat.and_div_two, h]
      have hm : ¬ (x % 2 = 1 ∧ y % 2 = 1) := by
        intro hc
        have := Nat.and_mod_two_eq_one.mpr hc
        rw [h] at this
        simp at this
      have ihx := ih (x / 2) (by omega) (y / 2) h2
      have hor := or_decomp x y
      rw [ihx] at hor
      have hdx := Nat.div_add_mod x 2
      have hdy := Nat.div_add_mod y 2
      have hx2 : x % 2 < 2 := Nat.mod_lt _ (by omega)
      have hy2 : y % 2 < 2 := Nat.mod_lt _ (by omega)
      by_cases ha : x % 2 = 1 <;> by_cases hb : y % 2 = 1 <;>
        simp only [ha, hb] at hor hm ⊢ <;> simp at hor hm ⊢ <;> omega

theorem and_eq_zero_of_testBit (x y : Nat)
    (h : ∀ i, x.testBit i = true → y.testBit i = false) : x &&& y = 0 := by
  apply Nat.eq_of_testBit_eq
  intro i
  simp only [Nat.testBit_and, Nat.zero_testBit]
  cases hx : x.testBit i with
  | false => simp
  | true => simp [h i hx]

theorem testBit_of_and_eq_zero {x y : Nat} (h : x &&& y = 0) {i : Nat}
    (hx : x.testBit i = true) : y.testBit i = false := by
  have h2 : (x &&& y).testBit i = false := by rw [h]; exact Nat.zero_testBit i
  rw [Nat.testBit_and, hx] at h2
  simpa using h2

theorem two_pow_and_eq_zero {i y : Nat} (h : y.testBit i = false) : 2 ^ i &&& y = 0 := by
  apply and_eq_zero_of_testBit
  intro j hj
  have : i = j := by
    by_contra hne
    rw [Nat.testBit_two_pow_of_ne hne] at hj
    exact Bool.noConfusion hj
  subst this
  exact h

theorem and_compl_self {n t : Nat} (h : t < 2 ^ n) : t &&& (2 ^ n - 1 - t) = 0 := by
  have h2 : 2 ^ n - 1 - t = 2 ^ n - (t + 1) := by omega
  rw [h2]
  apply and_eq_zero_of_testBit
  intro i hi
  rw [Nat.testBit_two_pow_sub_succ h]
  simp [hi]

/-! ### Structure of the lowest-set-bit and clear-lowest-bit expressions -/

theorem lowBit_odd {m : Nat} (hm : m % 2 = 1) (hu : m < U32) : lowBit m = 1 := by
  unfold lowBit
  have hU : U32 = 4294967296 := rfl
  have h0 : 0 < m := by omega
  have h1 : (U32 - m) % U32 = U32 - m := Nat.mod_eq_of_lt (by omega)
  rw [h1, and_decomp]
  have h2 : (U32 - m) % 2 = 1 := by omega
  have h3 : (U32 - m) / 2 = 2147483647 - m / 2 := by omega
  have h4 : (2147483647 : Nat) - m / 2 = 2 ^ 31 - 1 - m / 2 := by norm_num
  have h5 : m / 2 < 2 ^ 31 := by norm_num; omega
  rw [h3, h4, and_compl_self h5]
  simp [hm, h2]

theorem and_sub_high {m : Nat} (h0 : 0 < m) (hm : m < 2 ^ 31) :
    m &&& (2 ^ 32 - m) = m &&& (2 ^ 31 - m) := by
  apply Nat.eq_of_testBit_eq
  intro i
  simp only [Nat.testBit_and]
  by_cases hi : i < 31
  · have h1 : (2 : Nat) ^ 32 - m = 2 ^ 31 + (2 ^ 31 - m) := by
      have : (2 : Nat) ^ 32 = 2 ^ 31 + 2 ^ 31 := by norm_num
      omega
    rw [h1, Nat.testBit_two_pow_add_gt hi]
  · have h2 : m < 2 ^ i := lt_of_lt_of_le hm (Nat.pow_le_pow_right (by omega) (by omega))
    rw [Nat.testBit_lt_two_pow h2]
    simp

theorem lowBit_two_mul {m : Nat} (h0 : 0 < m) (hu : 2 * m < U32) :
    lowBit (2 * m) = 2 * lowBit m := by
  unfold lowBit
  have hU : U32 = 4294967296 := rfl
  have h1 : (U32 - 2 * m) % U32 = U32 - 2 * m := Nat.mod_eq_of_lt (by omega)
  have h2 : (U32 - m) % U32 = U32 - m := Nat.mod_eq_of_lt (by omega)
  rw [h1, h2, and_decomp]
  have h3 : (2 * m) % 2 = 0 := by omega
  have h4 : (2 * m) / 2 = m := by omega
  have h5 : (U32 - 2 * m) / 2 = 2 ^ 31 - m := by norm_num; omega
  have h6 : m < 2 ^ 31 := by norm_num at hU ⊢; omega
  have h7 : U32 - m = 2 ^ 32 - m := by norm_num [hU]
  rw [h3, h4, h5, h7, ← and_sub_high h0 h6]
  simp

theorem dropLow_odd {m : Nat} (hm : m % 2 = 1) : dropLow m = m - 1 := by
  unfold dropLow
  rw [and_decomp]
  have h1 : (m - 1) % 2 = 0 := by omega
  have h2 : (m - 1) / 2 = m / 2 := by omega
  rw [h1, h2, Nat.and_self]
  simp only [hm]
  norm_num
  omega

theorem dropLow_two_mul (m : Nat) : dropLow (2 * m) = 2 * dropLow m := by
  rcases Nat.eq_zero_or_pos m with h0 | h0
  · subst h0; simp [dropLow]
  · unfold dropLow
    rw [and_decomp]
    have h1 : (2 * m) % 2 = 0 := by omega
    have h2 : (2 * m) / 2 = m := by omega
    have h3 : (2 * m - 1) / 2 = m - 1 := by omega
    rw [h1, h2, h3]
    simp

theorem dropLow_le (m : Nat) : dropLow m ≤ m := Nat.and_le_left

theorem lowBit_and_dropLow {m : Nat} (hu : m < U32) : lowBit m &&& dropLow m = 0 := by
  induction m using Nat.strongRecOn with
  | _ m ih =>
    rcases Nat.eq_zero_or_pos m with h0 | h0
    · subst h0; simp [lowBit]
    · rcases Nat.mod_two_eq_zero_or_one m with h2 | h2
      · have ha : m = 2 * (m / 2) := by omega
        have hpos : 0 < m / 2 := by omega
        rw [ha, lowBit_two_mul hpos (by omega), dropLow_two_mul, and_decomp]
        have h3 : (2 * lowBit (m / 2)) % 2 = 0 := by omega
        have h4 : (2 * lowBit (m / 2)) / 2 = lowBit (m / 2) := by omega
        have h5 : (2 * dropLow (m / 2)) / 2 = dropLow (m / 2) := by omega
        rw [h3, h4, h5, ih (m / 2) (by omega) (by omega)]
        simp
      · rw [lowBit_odd h2 hu, dropLow_odd h2, Nat.one_and_eq_mod_two]
        omega

/-! ### Counting set bits -/

theorem bitCount_zero : bitCount 0 = 0 := by
  unfold bitCount; simp

theorem bitCount_step {m : Nat} (h : m ≠ 0) : bitCount m = m % 2 + bitCount (m / 2) := by
  conv_lhs => rw [bitCount]
  simp [h]

theorem bitCount_eq_zero {m : Nat} : bitCount m = 0 ↔ m = 0 := by
  constructor
  · intro h
    induction m using Nat.strongRecOn with
    | _ m ih =>
      by_contra hm
      rw [bitCount_step hm] at h
      have h1 : m % 2 = 0 := by omega
      have h2 : bitCount (m / 2) = 0 := by omega
      have h3 : m / 2 = 0 := by
        by_contra hh
        have h4 : m / 2 < m := by omega
        exact absurd (ih (m / 2) h4 h2) (by omega)
      omega
  · intro h; subst h; exact bitCount_zero

theorem bitCount_two_mul (m : Nat) : bitCount (2 * m) = bitCount m := by
  rcases Nat.eq_zero_or_pos m with h0 | h0
  · subst h0; simp
  · rw [bitCount_step (by omega)]
    have h1 : (2 * m) % 2 = 0 := by omega
    have h2 : (2 * m) / 2 = m := by omega
    rw [h1, h2]
    omega

theorem bitCount_odd {m : Nat} (h : m % 2 = 1) : bitCount m = 1 + bitCount (m / 2) := by
  rw [bitCount_step (by omega), h]

theorem bitCount_dropLow {m : Nat} (h : m ≠ 0) : bitCount (dropLow m) + 1 = bitCount m := by
  induction m using Nat.strongRecOn with
  | _ m ih =>
    rcases Nat.mod_two_eq_zero_or_one m with h2 | h2
    · have ha : m = 2 * (m / 2) := by omega
      have hpos : m / 2 ≠ 0 := by omega
      rw [ha, dropLow_two_mul, bitCount_two_mul, bitCount_two_mul]
      exact ih (m / 2) (by omega) hpos
    · rw [dropLow_odd h2, bitCount_odd h2]
      have h3 : m - 1 = 2 * (m / 2) := by omega
      rw [h3, bitCount_two_mul]
      omega

theorem bitCount_le {n : Nat} : ∀ {m : Nat}, m < 2 ^ n → bitCount m ≤ n := by
  induction n with
  | zero =>
    intro m hm
    have : m = 0 := by simpa using hm
    subst this
    simp [bitCount_zero]
  | succ n ih =>
    intro m hm
    rcases Nat.eq_zero_or_pos m with h0 | h0
    · subst h0; simp [bitCount_zero]
    · rw [bitCount_step (by omega)]
      have h1 : m / 2 < 2 ^ n := by
        rw [Nat.pow_succ] at hm
        omega
      have h2 := ih h1
      omega

theorem popcountF_succ (f m : Nat) :
    popcountF (f + 1) m = if m == 0 then 0 else m % 2 + popcountF f (m / 2) := rfl

theorem popcountF_eq_bitCount : ∀ (f : Nat) {m : Nat}, m < 2 ^ f → popcountF f m = bitCount m := by
  intro f
  induction f with
  | zero =>
    intro m hm
    have : m = 0 := by simpa using hm
    subst this
    simp [popcountF, bitCount_zero]
  | succ f ih =>
    intro m hm
    rw [popcountF_succ]
    by_cases h0 : m = 0
    · subst h0; simp [bitCount_zero]
    · have hb : (m == 0) = false := by simp [h0]
      rw [hb]
      simp only [Bool.false_eq_true, if_false]
      have h1 : m / 2 < 2 ^ f := by
        rw [Nat.pow_succ] at hm
        omega
      rw [ih h1, bitCount_step h0]

/-! ### Equations of the fueled specifications -/

theorem depSpecF_mask_zero (f v : Nat) : depSpecF f v 0 = 0 := by
  cases f <;> rfl

theorem depSpecF_even (f v b : Nat) : depSpecF (f + 1) v (2 * b) = 2 * depSpecF f v b := by
  rcases Nat.eq_zero_or_pos b with h0 | h0
  · subst h0; simp [depSpecF, depSpecF_mask_zero]
  · have h1 : ¬ (2 * b = 0) := by omega
    have h2 : ¬ ((2 * b) % 2 = 1) := by omega
    have h3 : (2 * b) / 2 = b := by omega
    simp only [depSpecF, if_neg h1, if_neg h2, h3]

theorem depSpecF_odd (f v b : Nat) :
    depSpecF (f + 1) v (2 * b + 1) = v % 2 + 2 * depSpecF f (v / 2) b := by
  have h1 : ¬ (2 * b + 1 = 0) := by omega
  have h2 : (2 * b + 1) % 2 = 1 := by omega
  have h3 : (2 * b + 1) / 2 = b := by omega
  simp only [depSpecF, if_neg h1, if_pos h2, h3]

theorem extSpecF_mask_zero (f v : Nat) : extSpecF f v 0 = 0 := by
  cases f <;> rfl

theorem extSpecF_even (f v b : Nat) : extSpecF (f + 1) v (2 * b) = extSpecF f (v / 2) b := by
  rcases Nat.eq_zero_or_pos b with h0 | h0
  · subst h0; simp [extSpecF, extSpecF_mask_zero]
  · have h1 : ¬ (2 * b = 0) := by omega
    have h2 : ¬ ((2 * b) % 2 = 1) := by omega
    have h3 : (2 * b) / 2 = b := by omega
    simp only [extSpecF, if_neg h1, if_neg h2, h3]

theorem extSpecF_odd (f v b : Nat) :
    extSpecF (f + 1) v (2 * b + 1) = v % 2 + 2 * extSpecF f (v / 2) b := by
  have h1 : ¬ (2 * b + 1 = 0) := by omega
  have h2 : (2 * b + 1) % 2 = 1 := by omega
  have h3 : (2 * b + 1) / 2 = b := by omega
  simp only [extSpecF, if_neg h1, if_pos h2, h3]

theorem depSpecF_val_zero : ∀ (f m : Nat), depSpecF f 0 m = 0 := by
  intro f
  induction f with
  | zero => intro m; rfl
  | succ f ih =>
    intro m
    rcases Nat.eq_zero_or_pos m with h0 | h0
    · subst h0; exact depSpecF_mask_zero _ _
    · rcases Nat.mod_two_eq_zero_or_one m with h2 | h2
      · have ha : m = 2 * (m / 2) := by omega
        rw [ha, depSpecF_even, ih]
      · have ha : m = 2 * (m / 2) + 1 := by omega
        rw [ha, depSpecF_odd]
        simpa using ih (m / 2)

theorem extSpecF_val_zero : ∀ (f m : Nat), extSpecF f 0 m = 0 := by
  intro f
  induction f with
  | zero => intro m; rfl
  | succ f ih =>
    intro m
    rcases Nat.eq_zero_or_pos m with h0 | h0
    · subst h0; exact extSpecF_mask_zero _ _
    · rcases Nat.mod_two_eq_zero_or_one m with h2 | h2
      · have ha : m = 2 * (m / 2) := by omega
        rw [ha, extSpecF_even]
        simpa using ih (m / 2)
      · have ha : m = 2 * (m / 2) + 1 := by omega
        rw [ha, extSpecF_odd]
        simpa using ih (m / 2)

/-! ### Core properties of the specifications -/

theorem depSpecF_step : ∀ (f : Nat) {m : Nat} (w : Nat), m < 2 ^ f → m ≠ 0 → m < U32 →
    depSpecF f w m = (if w % 2 = 1 then lowBit m else 0) + depSpecF f (w / 2) (dropLow m) := by
  intro f
  induction f with
  | zero => intro m w hm h0 hu; omega
  | succ g ih =>
    intro m w hm h0 hu
    rcases Nat.mod_two_eq_zero_or_one m with h2 | h2
    · obtain ⟨a, ha⟩ : ∃ a, m = 2 * a := ⟨m / 2, by omega⟩
      subst ha
      have ha0 : a ≠ 0 := by omega
      rw [depSpecF_even, lowBit_two_mul (by omega) hu, dropLow_two_mul, depSpecF_even,
        ih w (by rw [Nat.pow_succ] at hm; omega) ha0 (by omega)]
      by_cases hw : w % 2 = 1 <;> simp [hw] <;> ring
    · obtain ⟨b, hb⟩ : ∃ b, m = 2 * b + 1 := ⟨m / 2, by omega⟩
      subst hb
      rw [depSpecF_odd, lowBit_odd (by omega) hu, dropLow_odd (by omega)]
      have h3 : 2 * b + 1 - 1 = 2 * b := by omega
      rw [h3, depSpecF_even]
      by_cases hw : w % 2 = 1 <;> simp [hw] <;> omega

theorem extSpecF_step : ∀ (f : Nat) {m : Nat} (v : Nat), m < 2 ^ f → m ≠ 0 → m < U32 →
    extSpecF f v m = (if v &&& lowBit m ≠ 0 then 1 else 0) + 2 * extSpecF f v (dropLow m) := by
  intro f
  induction f with
  | zero => intro m v hm h0 hu; omega
  | succ g ih =>
    intro m v hm h0 hu
    rcases Nat.mod_two_eq_zero_or_one m with h2 | h2
    · obtain ⟨a, ha⟩ : ∃ a, m = 2 * a := ⟨m / 2, by omega⟩
      subst ha
      have ha0 : a ≠ 0 := by omega
      have hand : v &&& (2 * lowBit a) = 2 * (v / 2 &&& lowBit a) := by
        rw [and_decomp]
        have : ¬ (v % 2 = 1 ∧ (2 * lowBit a) % 2 = 1) := by omega
        simp only [if_neg this]
        have h4 : (2 * lowBit a) / 2 = lowBit a := by omega
        rw [h4]
        omega
      rw [extSpecF_even, lowBit_two_mul (by omega) hu, dropLow_two_mul, extSpecF_even, hand,
        ih (v / 2) (by rw [Nat.pow_succ] at hm; omega) ha0 (by omega)]
      have h5 : 2 * (v / 2 &&& lowBit a) ≠ 0 ↔ v / 2 &&& lowBit a ≠ 0 := by omega
      by_cases hc : v / 2 &&& lowBit a ≠ 0 <;> simp [hc, h5]
    · obtain ⟨b, hb⟩ : ∃ b, m = 2 * b + 1 := ⟨m / 2, by omega⟩
      subst hb
      rw [extSpecF_odd, lowBit_odd (by omega) hu, dropLow_odd (by omega)]
      have h3 : 2 * b + 1 - 1 = 2 * b := by omega
      rw [h3, extSpecF_even, Nat.and_one_is_mod]
      by_cases hv : v % 2 = 1
      · simp [hv]
      · have h4 : v % 2 = 0 := by omega
        simp [h4]

theorem depSpecF_testBit : ∀ (f : Nat) {v m p : Nat},
    (depSpecF f v m).testBit p = true → m.testBit p = true := by
  intro f
  induction f with
  | zero => intro v m p h; simp [depSpecF] at h
  | succ g ih =>
    intro v m p h
    rcases Nat.eq_zero_or_pos m with h0 | h0
    · subst h0; rw [depSpecF_mask_zero] at h; simp at h
    · rcases Nat.mod_two_eq_zero_or_one m with h2 | h2
      · obtain ⟨a, ha⟩ : ∃ a, m = 2 * a := ⟨m / 2, by omega⟩
        subst ha
        rw [depSpecF_even] at h
        cases p with
        | zero =>
          rw [Nat.testBit_zero] at h
          have : (2 * depSpecF g v a) % 2 = 0 := by omega
          simp [this] at h
        | succ q =>
          rw [Nat.testBit_add_one] at h ⊢
          have hq : (2 * depSpecF g v a) / 2 = depSpecF g v a := by omega
          have hm : (2 * a) / 2 = a := by omega
          rw [hq] at h
          rw [hm]
          exact ih h
      · obtain ⟨b, hb⟩ : ∃ b, m = 2 * b + 1 := ⟨m / 2, by omega⟩
        subst hb
        cases p with
        | zero =>
          rw [Nat.testBit_zero]
          simp [Nat.add_mul_mod_self_left]
          omega
        | succ q =>
          rw [depSpecF_odd] at h
          rw [Nat.testBit_add_one] at h ⊢
          have hq : (v % 2 + 2 * depSpecF g (v / 2) b) / 2 = depSpecF g (v / 2) b := by omega
          have hm : (2 * b + 1) / 2 = b := by omega
          rw [hq] at h
          rw [hm]
          exact ih h

theorem depSpecF_and_mask (f v m : Nat) : depSpecF f v m &&& m = depSpecF f v m := by
  apply Nat.eq_of_testBit_eq
  intro i
  rw [Nat.testBit_and]
  cases hd : (depSpecF f v m).testBit i with
  | false => simp
  | true => simp [depSpecF_testBit f hd]

theorem depSpecF_le_mask (f v m : Nat) : depSpecF f v m ≤ m := by
  conv_lhs => rw [← depSpecF_and_mask f v m]
  exact Nat.and_le_right


theorem mod_two_pow_succ_even (a s : Nat) : (2 * a) % 2 ^ (s + 1) = 2 * (a % 2 ^ s) := by
  have hp : (2 : Nat) ^ (s + 1) = 2 * 2 ^ s := by rw [Nat.pow_succ]; ring
  rw [hp, Nat.mod_mul]
  have h1 : (2 * a) / 2 = a := by omega
  have h2 : (2 * a) % 2 = 0 := by omega
  rw [h1, h2]
  omega

theorem mod_two_pow_succ_odd (b s : Nat) : (2 * b + 1) % 2 ^ (s + 1) = 2 * (b % 2 ^ s) + 1 := by
  have hp : (2 : Nat) ^ (s + 1) = 2 * 2 ^ s := by rw [Nat.pow_succ]; ring
  rw [hp, Nat.mod_mul]
  have h1 : (2 * b + 1) / 2 = b := by omega
  have h2 : (2 * b + 1) % 2 = 1 := by omega
  rw [h1, h2]
  omega

theorem extSpecF_depSpecF : ∀ (f : Nat) {m : Nat} (v : Nat), m < 2 ^ f →
    extSpecF f (depSpecF f v m) m = v % 2 ^ bitCount m := by
  intro f
  induction f with
  | zero =>
    intro m v hm
    have hm0 : m = 0 := by omega
    subst hm0
    show (0 : Nat) = v % 2 ^ bitCount 0
    rw [bitCount_zero, Nat.pow_zero]
    omega
  | succ g ih =>
    intro m v hm
    rcases Nat.eq_zero_or_pos m with h0 | h0
    · subst h0
      rw [depSpecF_mask_zero, extSpecF_mask_zero, bitCount_zero, Nat.pow_zero]
      omega
    · rcases Nat.mod_two_eq_zero_or_one m with h2 | h2
      · obtain ⟨a, ha⟩ : ∃ a, m = 2 * a := ⟨m / 2, by omega⟩
        subst ha
        rw [depSpecF_even, extSpecF_even, bitCount_two_mul]
        have hq : 2 * depSpecF g v a / 2 = depSpecF g v a := by omega
        rw [hq]
        exact ih v (by rw [Nat.pow_succ] at hm; omega)
      · obtain ⟨b, hb⟩ : ∃ b, m = 2 * b + 1 := ⟨m / 2, by omega⟩
        subst hb
        rw [depSpecF_odd, extSpecF_odd]
        have hd : (v % 2 + 2 * depSpecF g (v / 2) b) / 2 = depSpecF g (v / 2) b := by omega
        have hm2 : (v % 2 + 2 * depSpecF g (v / 2) b) % 2 = v % 2 := by omega
        rw [hd, hm2, ih (v / 2) (by rw [Nat.pow_succ] at hm; omega)]
        have hc : bitCount (2 * b + 1) = bitCount b + 1 := by
          rw [bitCount_odd (by omega)]
          have hq : (2 * b + 1) / 2 = b := by omega
          rw [hq]
          omega
        rw [hc]
        have hpow : (2 : Nat) ^ (bitCount b + 1) = 2 * 2 ^ bitCount b := by
          rw [Nat.pow_succ]; ring
        rw [hpow, Nat.mod_mul]

theorem depSpecF_lt : ∀ (n f v m : Nat), v < 2 ^ bitCount (m % 2 ^ n) →
    depSpecF f v m < 2 ^ n := by
  intro n f
  induction f generalizing n with
  | zero => intro v m hv; simp only [depSpecF]; exact Nat.two_pow_pos n
  | succ g ih =>
    intro v m hv
    rcases Nat.eq_zero_or_pos m with h0 | h0
    · subst h0; rw [depSpecF_mask_zero]; exact Nat.two_pow_pos n
    · cases n with
      | zero =>
        rw [Nat.pow_zero, Nat.mod_one, bitCount_zero, Nat.pow_zero] at hv
        have hv0 : v = 0 := by omega
        subst hv0
        rw [depSpecF_val_zero]
        exact Nat.two_pow_pos 0
      | succ s =>
        rcases Nat.mod_two_eq_zero_or_one m with h2 | h2
        · obtain ⟨a, ha⟩ : ∃ a, m = 2 * a := ⟨m / 2, by omega⟩
          subst ha
          rw [mod_two_pow_succ_even, bitCount_two_mul] at hv
          have hlt := ih s v a hv
          rw [depSpecF_even]
          have hp : (2 : Nat) ^ (s + 1) = 2 * 2 ^ s := by rw [Nat.pow_succ]; ring
          omega
        · obtain ⟨b, hb⟩ : ∃ b, m = 2 * b + 1 := ⟨m / 2, by omega⟩
          subst hb
          rw [mod_two_pow_succ_odd, bitCount_odd (by omega)] at hv
          have hdiv : (2 * (b % 2 ^ s) + 1) / 2 = b % 2 ^ s := by omega
          rw [hdiv] at hv
          have hpow : (2 : Nat) ^ (1 + bitCount (b % 2 ^ s)) = 2 * 2 ^ bitCount (b % 2 ^ s) := by
            rw [Nat.add_comm, Nat.pow_succ]; ring
          rw [hpow] at hv
          have hlt := ih s (v / 2) b (by omega)
          rw [depSpecF_odd]
          have hp : (2 : Nat) ^ (s + 1) = 2 * 2 ^ s := by rw [Nat.pow_succ]; ring
          have h1 : v % 2 < 2 := Nat.mod_lt _ (by omega)
          omega

theorem extSpecF_lt : ∀ (n f v m : Nat), v < 2 ^ n →
    extSpecF f v m < 2 ^ bitCount (m % 2 ^ n) := by
  intro n f
  induction f generalizing n with
  | zero => intro v m hv; simp only [extSpecF]; exact Nat.two_pow_pos _
  | succ g ih =>
    intro v m hv
    rcases Nat.eq_zero_or_pos m with h0 | h0
    · subst h0
      rw [extSpecF_mask_zero]
      exact Nat.two_pow_pos _
    · cases n with
      | zero =>
        rw [Nat.pow_zero] at hv
        have hv0 : v = 0 := by omega
        subst hv0
        rw [extSpecF_val_zero]
        exact Nat.two_pow_pos _
      | succ s =>
        have hv2 : v / 2 < 2 ^ s := by
          have hp : (2 : Nat) ^ (s + 1) = 2 * 2 ^ s := by rw [Nat.pow_succ]; ring
          omega
        rcases Nat.mod_two_eq_zero_or_one m with h2 | h2
        · obtain ⟨a, ha⟩ : ∃ a, m = 2 * a := ⟨m / 2, by omega⟩
          subst ha
          rw [mod_two_pow_succ_even, bitCount_two_mul, extSpecF_even]
          exact ih s (v / 2) a hv2
        · obtain ⟨b, hb⟩ : ∃ b, m = 2 * b + 1 := ⟨m / 2, by omega⟩
          subst hb
          rw [mod_two_pow_succ_odd, extSpecF_odd, bitCount_odd (by omega)]
          have hdiv : (2 * (b % 2 ^ s) + 1) / 2 = b % 2 ^ s := by omega
          rw [hdiv]
          have hlt := ih s (v / 2) b hv2
          have hpow : (2 : Nat) ^ (1 + bitCount (b % 2 ^ s)) = 2 * 2 ^ bitCount (b % 2 ^ s) := by
            rw [Nat.add_comm, Nat.pow_succ]; ring
          have h1 : v % 2 < 2 := Nat.mod_lt _ (by omega)
          omega

theorem depSpecF_extSpecF : ∀ (f : Nat) {m : Nat} (v : Nat), m < 2 ^ f →
    depSpecF f (extSpecF f v m) m = v &&& m := by
  intro f
  induction f with
  | zero =>
    intro m v hm
    have hm0 : m = 0 := by omega
    subst hm0
    show (0 : Nat) = v &&& 0
    simp
  | succ g ih =>
    intro m v hm
    rcases Nat.eq_zero_or_pos m with h0 | h0
    · subst h0
      rw [extSpecF_mask_zero, depSpecF_mask_zero]
      simp
    · rcases Nat.mod_two_eq_zero_or_one m with h2 | h2
      · obtain ⟨a, ha⟩ : ∃ a, m = 2 * a := ⟨m / 2, by omega⟩
        subst ha
        rw [extSpecF_even, depSpecF_even, ih (v / 2) (by rw [Nat.pow_succ] at hm; omega)]
        rw [and_decomp v (2 * a)]
        have hc : ¬ (v % 2 = 1 ∧ (2 * a) % 2 = 1) := by omega
        have hd : (2 * a) / 2 = a := by omega
        rw [if_neg hc, hd]
        omega
      · obtain ⟨b, hb⟩ : ∃ b, m = 2 * b + 1 := ⟨m / 2, by omega⟩
        subst hb
        rw [extSpecF_odd, depSpecF_odd]
        have hd : (v % 2 + 2 * extSpecF g (v / 2) b) / 2 = extSpecF g (v / 2) b := by omega
        have hm2 : (v % 2 + 2 * extSpecF g (v / 2) b) % 2 = v % 2 := by omega
        rw [hd, hm2, ih (v / 2) (by rw [Nat.pow_succ] at hm; omega)]
        rw [and_decomp v (2 * b + 1)]
        have hmm : (2 * b + 1) % 2 = 1 := by omega
        have hdd : (2 * b + 1) / 2 = b := by omega
        rw [hmm, hdd]
        by_cases hv : v % 2 = 1
        · simp only [hv, and_self, if_pos]
          omega
        · have h4 : v % 2 = 0 := by omega
          have hc : ¬ (v % 2 = 1 ∧ (1 : Nat) = 1) := by omega
          rw [if_neg hc]
          omega

theorem extSpecF_or : ∀ (f a b m : Nat),
    extSpecF f (a ||| b) m = extSpecF f a m ||| extSpecF f b m := by
  intro f
  induction f with
  | zero => intro a b m; simp [extSpecF]
  | succ g ih =>
    intro a b m
    rcases Nat.eq_zero_or_pos m with h0 | h0
    · subst h0; rw [extSpecF_mask_zero, extSpecF_mask_zero, extSpecF_mask_zero]; simp
    · rcases Nat.mod_two_eq_zero_or_one m with h2 | h2
      · obtain ⟨c, hc⟩ : ∃ c, m = 2 * c := ⟨m / 2, by omega⟩
        subst hc
        rw [extSpecF_even, extSpecF_even, extSpecF_even, Nat.or_div_two, ih]
      · obtain ⟨c, hc⟩ : ∃ c, m = 2 * c + 1 := ⟨m / 2, by omega⟩
        subst hc
        rw [extSpecF_odd, extSpecF_odd, extSpecF_odd, Nat.or_div_two, ih]
        set ea := extSpecF g (a / 2) c with hea
        set eb := extSpecF g (b / 2) c with heb
        rw [or_decomp (a % 2 + 2 * ea) (b % 2 + 2 * eb)]
        have d1 : (a % 2 + 2 * ea) / 2 = ea := by omega
        have d2 : (b % 2 + 2 * eb) / 2 = eb := by omega
        have m1 : (a % 2 + 2 * ea) % 2 = a % 2 := by omega
        have m2 : (b % 2 + 2 * eb) % 2 = b % 2 := by omega
        rw [d1, d2, m1, m2]
        have hor : (a ||| b) % 2 = if a % 2 = 1 ∨ b % 2 = 1 then 1 else 0 := by
          by_cases hc2 : a % 2 = 1 ∨ b % 2 = 1
          · rw [if_pos hc2]
            exact Nat.or_mod_two_eq_one.mpr hc2
          · rw [if_neg hc2]
            have h3 : (a ||| b) % 2 ≠ 1 := fun h => hc2 (Nat.or_mod_two_eq_one.mp h)
            omega
        rw [hor]
        by_cases hc2 : a % 2 = 1 ∨ b % 2 = 1
        · rw [if_pos hc2]
          omega
        · rw [if_neg hc2]
          omega

theorem extSpecF_foreign : ∀ (f v m : Nat),
    (∀ p, v.testBit p = true → m.testBit p = false) → extSpecF f v m = 0 := by
  intro f
  induction f with
  | zero => intro v m h; rfl
  | succ g ih =>
    intro v m h
    rcases Nat.eq_zero_or_pos m with h0 | h0
    · subst h0; exact extSpecF_mask_zero _ _
    · have hstep : ∀ p, (v / 2).testBit p = true → (m / 2).testBit p = false := by
        intro p hp
        rw [Nat.testBit_div_two] at hp
        have := h (p + 1) hp
        rw [Nat.testBit_add_one] at this
        exact this
      rcases Nat.mod_two_eq_zero_or_one m with h2 | h2
      · obtain ⟨c, hc⟩ : ∃ c, m = 2 * c := ⟨m / 2, by omega⟩
        subst hc
        rw [extSpecF_even]
        have hd : (2 * c) / 2 = c := by omega
        rw [hd] at hstep
        exact ih (v / 2) c hstep
      · obtain ⟨c, hc⟩ : ∃ c, m = 2 * c + 1 := ⟨m / 2, by omega⟩
        subst hc
        rw [extSpecF_odd]
        have hv0 : v % 2 = 0 := by
          by_contra hv
          have hv1 : v % 2 = 1 := by omega
          have hb : v.testBit 0 = true := by
            rw [Nat.testBit_zero]
            simp [hv1]
          have := h 0 hb
          rw [Nat.testBit_zero] at this
          simp at this
          omega
        have hd : (2 * c + 1) / 2 = c := by omega
        rw [hd] at hstep
        rw [hv0, ih (v / 2) c hstep]

/-! ### The source loops compute the specifications -/

theorem U32_eq : U32 = 2 ^ 32 := by unfold U32; norm_num

theorem deposit_loop_succ (f v m bb res : Nat) :
    deposit_loop (f + 1) v m bb res =
      if m == 0 then res
      else deposit_loop f v (m &&& (m - 1)) ((bb + bb) % U32)
        (if (v &&& bb) != 0 then res ||| (m &&& ((U32 - m) % U32)) else res) := rfl

theorem extract_loop_succ (f v m bb res : Nat) :
    extract_loop (f + 1) v m bb res =
      if m == 0 then res
      else extract_loop f v (m &&& (m - 1)) ((bb + bb) % U32)
        (if (v &&& (m &&& ((U32 - m) % U32))) != 0 then res ||| bb else res) := rfl

theorem testBit_cond (v i : Nat) : ((v &&& 2 ^ i) != 0) = v.testBit i := by
  rw [Nat.and_two_pow]
  have hp := Nat.two_pow_pos i
  cases h : v.testBit i
  · simp
  · simp

theorem lowBit_and_depSpecF {m : Nat} (hu : m < U32) (f w : Nat) :
    lowBit m &&& depSpecF f w (dropLow m) = 0 := by
  apply and_eq_zero_of_testBit
  intro p hp
  by_contra hd
  have hd2 : (depSpecF f w (dropLow m)).testBit p = true := by
    cases h : (depSpecF f w (dropLow m)).testBit p
    · exact absurd h hd
    · rfl
  have h3 : (dropLow m).testBit p = true := depSpecF_testBit f hd2
  have h4 := testBit_of_and_eq_zero (lowBit_and_dropLow hu) hp
  rw [h3] at h4
  exact Bool.noConfusion h4

theorem deposit_loop_invariant : ∀ (fuel : Nat) {m : Nat} (v i res : Nat),
    bitCount m ≤ fuel → m < U32 → i + fuel ≤ 32 →
    deposit_loop fuel v m (2 ^ i % U32) res = res ||| depSpec (v / 2 ^ i) m := by
  intro fuel
  induction fuel with
  | zero =>
    intro m v i res hc hu hi
    have hm0 : m = 0 := bitCount_eq_zero.mp (by omega)
    subst hm0
    show res = res ||| depSpec (v / 2 ^ i) 0
    rw [depSpec, depSpecF_mask_zero]
    simp
  | succ g ih =>
    intro m v i res hc hu hi
    rcases Nat.eq_zero_or_pos m with h0 | h0
    · subst h0
      rw [deposit_loop_succ, if_pos (by simp)]
      rw [depSpec, depSpecF_mask_zero]
      simp
    · have hne : m ≠ 0 := by omega
      rw [deposit_loop_succ, if_neg (by simp [hne])]
      show deposit_loop g v (dropLow m) ((2 ^ i % U32 + 2 ^ i % U32) % U32)
        (if (v &&& (2 ^ i % U32)) != 0 then res ||| lowBit m else res) = _
      have hi31 : i < 32 := by omega
      have hbb : 2 ^ i % U32 = 2 ^ i := by
        apply Nat.mod_eq_of_lt
        rw [U32_eq]
        exact Nat.pow_lt_pow_right (by omega) hi31
      rw [hbb]
      have hsum : 2 ^ i + 2 ^ i = 2 ^ (i + 1) := by rw [Nat.pow_succ]; ring
      rw [hsum]
      have hcnt : bitCount (dropLow m) ≤ g := by
        have := bitCount_dropLow hne
        omega
      have hdu : dropLow m < U32 := lt_of_le_of_lt (dropLow_le m) hu
      rw [ih v (i + 1) _ hcnt hdu (by omega)]
      have hm32 : m < 2 ^ 32 := by rw [← U32_eq]; exact hu
      have hstep := depSpecF_step 32 (v / 2 ^ i) hm32 hne hu
      have hdd : v / 2 ^ i / 2 = v / 2 ^ (i + 1) := by
        rw [Nat.div_div_eq_div_mul, Nat.pow_succ]
      simp only [depSpec]
      rw [hstep, hdd, testBit_cond, Nat.testBit_to_div_mod]
      by_cases hcnd : (v / 2 ^ i) % 2 = 1
      · rw [if_pos (by simp [hcnd]), if_pos hcnd]
        rw [Nat.or_assoc]
        congr 1
        exact lor_eq_add_of_and_eq_zero _ _ (lowBit_and_depSpecF hu 32 (v / 2 ^ (i + 1)))
      · rw [if_neg (by simp [hcnd]), if_neg hcnd]
        rw [Nat.zero_add]

theorem two_pow_and_mul_two_pow_succ (i e : Nat) : 2 ^ i &&& 2 ^ (i + 1) * e = 0 := by
  apply two_pow_and_eq_zero
  rw [Nat.testBit_mul_pow_two]
  simp

theorem extract_loop_invariant : ∀ (fuel : Nat) {m : Nat} (v i res : Nat),
    bitCount m ≤ fuel → m < U32 → i + fuel ≤ 32 →
    extract_loop fuel v m (2 ^ i % U32) res = res ||| 2 ^ i * extSpec v m := by
  intro fuel
  induction fuel with
  | zero =>
    intro m v i res hc hu hi
    have hm0 : m = 0 := bitCount_eq_zero.mp (by omega)
    subst hm0
    show res = res ||| 2 ^ i * extSpec v 0
    rw [extSpec, extSpecF_mask_zero]
    simp
  | succ g ih =>
    intro m v i res hc hu hi
    rcases Nat.eq_zero_or_pos m with h0 | h0
    · subst h0
      rw [extract_loop_succ, if_pos (by simp)]
      rw [extSpec, extSpecF_mask_zero]
      simp
    · have hne : m ≠ 0 := by omega
      rw [extract_loop_succ, if_neg (by simp [hne])]
      show extract_loop g v (dropLow m) ((2 ^ i % U32 + 2 ^ i % U32) % U32)
        (if (v &&& lowBit m) != 0 then res ||| 2 ^ i % U32 else res) = _
      have hi31 : i < 32 := by omega
      have hbb : 2 ^ i % U32 = 2 ^ i := by
        apply Nat.mod_eq_of_lt
        rw [U32_eq]
        exact Nat.pow_lt_pow_right (by omega) hi31
      rw [hbb]
      have hsum : 2 ^ i + 2 ^ i = 2 ^ (i + 1) := by rw [Nat.pow_succ]; ring
      rw [hsum]
      have hcnt : bitCount (dropLow m) ≤ g := by
        have := bitCount_dropLow hne
        omega
      have hdu : dropLow m < U32 := lt_of_le_of_lt (dropLow_le m) hu
      rw [ih v (i + 1) _ hcnt hdu (by omega)]
      have hm32 : m < 2 ^ 32 := by rw [← U32_eq]; exact hu
      have hstep := extSpecF_step 32 v hm32 hne hu
      simp only [extSpec]
      rw [hstep]
      have hdistr : 2 ^ i * ((if v &&& lowBit m ≠ 0 then 1 else 0) +
          2 * extSpecF 32 v (dropLow m)) =
          (if v &&& lowBit m ≠ 0 then 2 ^ i else 0) + 2 ^ (i + 1) * extSpecF 32 v (dropLow m) := by
        by_cases hcnd : v &&& lowBit m ≠ 0
        · rw [if_pos hcnd, if_pos hcnd, Nat.pow_succ]
          ring
        · rw [if_neg hcnd, if_neg hcnd, Nat.pow_succ]
          ring
      rw [hdistr]
      by_cases hcnd : v &&& lowBit m = 0
      · rw [if_neg (by simp [hcnd]), if_neg (by omega)]
        rw [Nat.zero_add]
      · rw [if_pos (by simp [hcnd]), if_pos (by omega)]
        rw [Nat.or_assoc]
        congr 1
        exact lor_eq_add_of_and_eq_zero _ _ (two_pow_and_mul_two_pow_succ i _)

theorem deposit_bits_eq {m : Nat} (v : Nat) (hu : m < U32) : deposit_bits v m = depSpec v m := by
  have hc : bitCount m ≤ 32 := bitCount_le (by rw [← U32_eq]; exact hu)
  have h := deposit_loop_invariant 32 v 0 0 hc hu (by omega)
  have h1 : (2 : Nat) ^ 0 % U32 = 1 := by rw [U32_eq]; norm_num
  rw [h1] at h
  have h2 : v / 2 ^ 0 = v := by norm_num
  rw [h2] at h
  show deposit_loop 32 v m 1 0 = depSpec v m
  rw [h]
  exact Nat.zero_or _

theorem extract_bits_eq {m : Nat} (v : Nat) (hu : m < U32) : extract_bits v m = extSpec v m := by
  have hc : bitCount m ≤ 32 := bitCount_le (by rw [← U32_eq]; exact hu)
  have h := extract_loop_invariant 32 v 0 0 hc hu (by omega)
  have h1 : (2 : Nat) ^ 0 % U32 = 1 := by rw [U32_eq]; norm_num
  rw [h1] at h
  show extract_loop 32 v m 1 0 = extSpec v m
  rw [h]
  rw [Nat.zero_or, Nat.pow_zero, Nat.one_mul]

/-! ### Mask constants and axis interleaving -/

theorem masks2D_disjoint : xBytesMask2D &&& yBytesMask2D = 0 := by decide!

theorem masks2D_union : xBytesMask2D ||| yBytesMask2D = 65535 := by decide!

theorem masks2D_lt : xBytesMask2D < U32 ∧ yBytesMask2D < U32 := by decide!

theorem bitCount_mask2D : bitCount xBytesMask2D = 8 ∧ bitCount yBytesMask2D = 8 := by
  have h1 : popcountF 32 xBytesMask2D = 8 := by decide!
  have h2 : popcountF 32 yBytesMask2D = 8 := by decide!
  rw [← popcountF_eq_bitCount 32 (by decide!), ← popcountF_eq_bitCount 32 (by decide!)]
  exact ⟨h1, h2⟩

theorem bitCount_mask2D_mod : ∀ k : Nat, k ≤ 8 →
    bitCount (xBytesMask2D % 2 ^ (2 * k)) = k ∧ bitCount (yBytesMask2D % 2 ^ (2 * k)) = k := by
  have h : ∀ k : Nat, k ≤ 8 →
      (popcountF 32 (xBytesMask2D % 2 ^ (2 * k)) == k &&
        popcountF 32 (yBytesMask2D % 2 ^ (2 * k)) == k) = true := by decide!
  intro k hk
  have h2 := h k hk
  rw [Bool.and_eq_true, beq_iff_eq, beq_iff_eq] at h2
  have hx : xBytesMask2D % 2 ^ (2 * k) < 2 ^ 32 := by
    calc xBytesMask2D % 2 ^ (2 * k) ≤ xBytesMask2D := Nat.mod_le _ _
    _ < 2 ^ 32 := by decide!
  have hy : yBytesMask2D % 2 ^ (2 * k) < 2 ^ 32 := by
    calc yBytesMask2D % 2 ^ (2 * k) ≤ yBytesMask2D := Nat.mod_le _ _
    _ < 2 ^ 32 := by decide!
  rw [← popcountF_eq_bitCount 32 hx, ← popcountF_eq_bitCount 32 hy]
  exact h2

theorem or_lt_two_pow {a b n : Nat} (ha : a < 2 ^ n) (hb : b < 2 ^ n) : a ||| b < 2 ^ n := by
  apply Nat.lt_pow_two_of_testBit
  intro i hi
  rw [Nat.testBit_or, Nat.testBit_lt_two_pow (lt_of_lt_of_le ha (Nat.pow_le_pow_right (by omega) hi)),
    Nat.testBit_lt_two_pow (lt_of_lt_of_le hb (Nat.pow_le_pow_right (by omega) hi))]
  rfl

theorem depSpec_and_depSpec {X Y : Nat} (h : X &&& Y = 0) (x y : Nat) :
    depSpec x X &&& depSpec y Y = 0 := by
  apply and_eq_zero_of_testBit
  intro p hp
  have hX : X.testBit p = true := depSpecF_testBit 32 hp
  have hY : Y.testBit p = false := testBit_of_and_eq_zero h hX
  cases hd : (depSpec y Y).testBit p
  · rfl
  · have := depSpecF_testBit 32 hd
    rw [hY] at this
    exact Bool.noConfusion this

theorem and_masks_disjoint {X Y : Nat} (h : X &&& Y = 0) (a b : Nat) :
    (a &&& X) &&& (b &&& Y) = 0 := by
  apply and_eq_zero_of_testBit
  intro p hp
  rw [Nat.testBit_and] at hp
  have hX : X.testBit p = true := (Bool.and_eq_true _ _ |>.mp hp).2
  have hY : Y.testBit p = false := testBit_of_and_eq_zero h hX
  rw [Nat.testBit_and, hY]
  simp

theorem extSpec_foreign_dep {X Y : Nat} (h : Y &&& X = 0) (y : Nat) :
    extSpec (depSpec y Y) X = 0 := by
  apply extSpecF_foreign
  intro p hp
  have hY : Y.testBit p = true := depSpecF_testBit 32 hp
  exact testBit_of_and_eq_zero h hY

theorem interleave2_spec {x y : Nat} (hx : x < U32) (hy : y < U32) :
    interleave2 x y = depSpec x xBytesMask2D + depSpec y yBytesMask2D := by
  unfold interleave2
  rw [Nat.mod_eq_of_lt hx, Nat.mod_eq_of_lt hy,
    deposit_bits_eq x masks2D_lt.1, deposit_bits_eq y masks2D_lt.2]
  apply Nat.mod_eq_of_lt
  have h1 : depSpec x xBytesMask2D ≤ xBytesMask2D := depSpecF_le_mask 32 x _
  have h2 : depSpec y yBytesMask2D ≤ yBytesMask2D := depSpecF_le_mask 32 y _
  have h3 : xBytesMask2D < U32 := masks2D_lt.1
  have h4 : yBytesMask2D < U32 := masks2D_lt.2
  have h5 : xBytesMask2D ≤ 65535 := by decide!
  have h6 : yBytesMask2D ≤ 65535 := by decide!
  rw [U32_eq]
  have h7 : (65535 : Nat) + 65535 < 2 ^ 32 := by norm_num
  omega

theorem interleave2_forward {k x y : Nat} (hk : k ≤ 8) (hx : x < 2 ^ k) (hy : y < 2 ^ k) :
    interleave2 x y < 2 ^ (2 * k) ∧
    extract_bits (interleave2 x y) xBytesMask2D = x ∧
    extract_bits (interleave2 x y) yBytesMask2D = y := by
  have hk8 : (2 : Nat) ^ k ≤ 2 ^ 8 := Nat.pow_le_pow_right (by omega) hk
  have hxu : x < U32 := by rw [U32_eq]; calc x < 2 ^ k := hx
                                           _ ≤ 2 ^ 8 := hk8
                                           _ ≤ 2 ^ 32 := Nat.pow_le_pow_right (by omega) (by omega)
  have hyu : y < U32 := by rw [U32_eq]; calc y < 2 ^ k := hy
                                           _ ≤ 2 ^ 8 := hk8
                                           _ ≤ 2 ^ 32 := Nat.pow_le_pow_right (by omega) (by omega)
  have hspec := interleave2_spec hxu hyu
  have hdisj := depSpec_and_depSpec masks2D_disjoint x y
  have hor : interleave2 x y = depSpec x xBytesMask2D ||| depSpec y yBytesMask2D := by
    rw [hspec, lor_eq_add_of_and_eq_zero _ _ hdisj]
  have hxcnt := (bitCount_mask2D_mod k hk).1
  have hycnt := (bitCount_mask2D_mod k hk).2
  have hbx : depSpec x xBytesMask2D < 2 ^ (2 * k) := depSpecF_lt (2 * k) 32 x _ (by rw [hxcnt]; exact hx)
  have hby : depSpec y yBytesMask2D < 2 ^ (2 * k) := depSpecF_lt (2 * k) 32 y _ (by rw [hycnt]; exact hy)
  have hbound : interleave2 x y < 2 ^ (2 * k) := by
    rw [hor]; exact or_lt_two_pow hbx hby
  have hiu : interleave2 x y < U32 := by
    rw [U32_eq]
    calc interleave2 x y < 2 ^ (2 * k) := hbound
    _ ≤ 2 ^ 32 := Nat.pow_le_pow_right (by omega) (by omega)
  have hm32 : xBytesMask2D < 2 ^ 32 := by rw [← U32_eq]; exact masks2D_lt.1
  have hm32y : yBytesMask2D < 2 ^ 32 := by rw [← U32_eq]; exact masks2D_lt.2
  refine ⟨hbound, ?_, ?_⟩
  · rw [extract_bits_eq _ masks2D_lt.1, hor]
    show extSpecF 32 _ _ = x
    rw [(by rfl : extSpecF 32 (depSpec x xBytesMask2D ||| depSpec y yBytesMask2D) xBytesMask2D =
      extSpec (depSpec x xBytesMask2D ||| depSpec y yBytesMask2D) xBytesMask2D)]
    unfold extSpec
    rw [extSpecF_or]
    have h1 : extSpecF 32 (depSpec x xBytesMask2D) xBytesMask2D = x % 2 ^ bitCount xBytesMask2D :=
      extSpecF_depSpecF 32 x hm32
    have h2 : extSpecF 32 (depSpec y yBytesMask2D) xBytesMask2D = 0 :=
      extSpec_foreign_dep (by rw [Nat.land_comm]; exact masks2D_disjoint) y
    rw [h1, h2, bitCount_mask2D.1, Nat.mod_eq_of_lt (by omega)]
    simp
  · rw [extract_bits_eq _ masks2D_lt.2, hor]
    unfold extSpec
    rw [extSpecF_or]
    have h1 : extSpecF 32 (depSpec y yBytesMask2D) yBytesMask2D = y % 2 ^ bitCount yBytesMask2D :=
      extSpecF_depSpecF 32 y hm32y
    have h2 : extSpecF 32 (depSpec x xBytesMask2D) yBytesMask2D = 0 :=
      extSpec_foreign_dep masks2D_disjoint x
    rw [h1, h2, bitCount_mask2D.2, Nat.mod_eq_of_lt (by omega)]
    simp

theorem interleave2_backward {k idx : Nat} (hk : k ≤ 8) (hidx : idx < 2 ^ (2 * k)) :
    extract_bits idx xBytesMask2D < 2 ^ k ∧ extract_bits idx yBytesMask2D < 2 ^ k ∧
    interleave2 (extract_bits idx xBytesMask2D) (extract_bits idx yBytesMask2D) = idx := by
  have hi16 : idx < 2 ^ 16 :=
    lt_of_lt_of_le hidx (Nat.pow_le_pow_right (by omega) (by omega))
  have hiu : idx < U32 := by
    rw [U32_eq]
    exact lt_of_lt_of_le hi16 (Nat.pow_le_pow_right (by omega) (by omega))
  have hm32 : xBytesMask2D < 2 ^ 32 := by rw [← U32_eq]; exact masks2D_lt.1
  have hm32y : yBytesMask2D < 2 ^ 32 := by rw [← U32_eq]; exact masks2D_lt.2
  have hex : extract_bits idx xBytesMask2D = extSpec idx xBytesMask2D :=
    extract_bits_eq idx masks2D_lt.1
  have hey : extract_bits idx yBytesMask2D = extSpec idx yBytesMask2D :=
    extract_bits_eq idx masks2D_lt.2
  have hxcnt := (bitCount_mask2D_mod k hk).1
  have hycnt := (bitCount_mask2D_mod k hk).2
  have hbx : extSpec idx xBytesMask2D < 2 ^ k := by
    have := extSpecF_lt (2 * k) 32 idx xBytesMask2D hidx
    rw [hxcnt] at this
    exact this
  have hby : extSpec idx yBytesMask2D < 2 ^ k := by
    have := extSpecF_lt (2 * k) 32 idx yBytesMask2D hidx
    rw [hycnt] at this
    exact this
  refine ⟨by rw [hex]; exact hbx, by rw [hey]; exact hby, ?_⟩
  rw [hex, hey]
  have hexu : extSpec idx xBytesMask2D < U32 := by
    rw [U32_eq]
    exact lt_of_lt_of_le hbx (Nat.pow_le_pow_right (by omega) (by omega))
  have heyu : extSpec idx yBytesMask2D < U32 := by
    rw [U32_eq]
    exact lt_of_lt_of_le hby (Nat.pow_le_pow_right (by omega) (by omega))
  rw [interleave2_spec hexu heyu]
  show depSpecF 32 (extSpecF 32 idx xBytesMask2D) xBytesMask2D +
    depSpecF 32 (extSpecF 32 idx yBytesMask2D) yBytesMask2D = idx
  rw [depSpecF_extSpecF 32 idx hm32, depSpecF_extSpecF 32 idx hm32y,
    ← lor_eq_add_of_and_eq_zero _ _ (and_masks_disjoint masks2D_disjoint idx idx),
    ← Nat.and_or_distrib_left, masks2D_union]
  have h65535 : (65535 : Nat) = 2 ^ 16 - 1 := by norm_num
  rw [h65535, Nat.and_pow_two_sub_one_eq_mod]
  exact Nat.mod_eq_of_lt hi16

theorem masks3D_disjoint : xBytesMask3D &&& yBytesMask3D = 0 ∧ xBytesMask3D &&& zBytesMask3D = 0 ∧
    yBytesMask3D &&& zBytesMask3D = 0 := by decide!

theorem masks3D_union : xBytesMask3D ||| yBytesMask3D ||| zBytesMask3D = 65535 := by decide!

theorem masks3D_lt : xBytesMask3D < U32 ∧ yBytesMask3D < U32 ∧ zBytesMask3D < U32 := by decide!

theorem bitCount_mask3D :
    bitCount xBytesMask3D = 6 ∧ bitCount yBytesMask3D = 5 ∧ bitCount zBytesMask3D = 5 := by
  have h1 : popcountF 32 xBytesMask3D = 6 := by decide!
  have h2 : popcountF 32 yBytesMask3D = 5 := by decide!
  have h3 : popcountF 32 zBytesMask3D = 5 := by decide!
  rw [← popcountF_eq_bitCount 32 (by decide!), ← popcountF_eq_bitCount 32 (by decide!),
    ← popcountF_eq_bitCount 32 (by decide!)]
  exact ⟨h1, h2, h3⟩

theorem bitCount_mask3D_mod : ∀ k : Nat, k ≤ 5 →
    bitCount (xBytesMask3D % 2 ^ (3 * k)) = k ∧ bitCount (yBytesMask3D % 2 ^ (3 * k)) = k ∧
    bitCount (zBytesMask3D % 2 ^ (3 * k)) = k := by
  have h : ∀ k : Nat, k ≤ 5 →
      (popcountF 32 (xBytesMask3D % 2 ^ (3 * k)) == k &&
        (popcountF 32 (yBytesMask3D % 2 ^ (3 * k)) == k &&
          popcountF 32 (zBytesMask3D % 2 ^ (3 * k)) == k)) = true := by decide!
  intro k hk
  have h2 := h k hk
  rw [Bool.and_eq_true, Bool.and_eq_true, beq_iff_eq, beq_iff_eq, beq_iff_eq] at h2
  have hx : xBytesMask3D % 2 ^ (3 * k) < 2 ^ 32 :=
    lt_of_le_of_lt (Nat.mod_le _ _) (by decide!)
  have hy : yBytesMask3D % 2 ^ (3 * k) < 2 ^ 32 :=
    lt_of_le_of_lt (Nat.mod_le _ _) (by decide!)
  have hz : zBytesMask3D % 2 ^ (3 * k) < 2 ^ 32 :=
    lt_of_le_of_lt (Nat.mod_le _ _) (by decide!)
  rw [← popcountF_eq_bitCount 32 hx, ← popcountF_eq_bitCount 32 hy, ← popcountF_eq_bitCount 32 hz]
  exact ⟨h2.1, h2.2.1, h2.2.2⟩

theorem interleave3_spec {x y z : Nat} (hx : x < U32) (hy : y < U32) (hz : z < U32) :
    interleave3 x y z =
      depSpec x xBytesMask3D + depSpec y yBytesMask3D + depSpec z zBytesMask3D := by
  unfold interleave3
  rw [Nat.mod_eq_of_lt hx, Nat.mod_eq_of_lt hy, Nat.mod_eq_of_lt hz,
    deposit_bits_eq x masks3D_lt.1, deposit_bits_eq y masks3D_lt.2.1,
    deposit_bits_eq z masks3D_lt.2.2]
  apply Nat.mod_eq_of_lt
  have h1 : depSpec x xBytesMask3D ≤ xBytesMask3D := depSpecF_le_mask 32 x _
  have h2 : depSpec y yBytesMask3D ≤ yBytesMask3D := depSpecF_le_mask 32 y _
  have h3 : depSpec z zBytesMask3D ≤ zBytesMask3D := depSpecF_le_mask 32 z _
  have h5 : xBytesMask3D ≤ 65535 := by decide!
  have h6 : yBytesMask3D ≤ 65535 := by decide!
  have h7 : zBytesMask3D ≤ 65535 := by decide!
  rw [U32_eq]
  have h8 : (65535 : Nat) + 65535 + 65535 < 2 ^ 32 := by norm_num
  omega

theorem interleave3_or {x y z : Nat} (hx : x < U32) (hy : y < U32) (hz : z < U32) :
    interleave3 x y z =
      depSpec x xBytesMask3D ||| depSpec y yBytesMask3D ||| depSpec z zBytesMask3D := by
  rw [interleave3_spec hx hy hz]
  have h12 := lor_eq_add_of_and_eq_zero _ _ (depSpec_and_depSpec masks3D_disjoint.1 x y)
  have hdisj : (depSpec x xBytesMask3D ||| depSpec y yBytesMask3D) &&& depSpec z zBytesMask3D
      = 0 := by
    apply and_eq_zero_of_testBit
    intro p hp
    rw [Nat.testBit_or] at hp
    rcases Bool.or_eq_true _ _ |>.mp hp with hpx | hpy
    · have hX : xBytesMask3D.testBit p = true := depSpecF_testBit 32 hpx
      have hZ : zBytesMask3D.testBit p = false := testBit_of_and_eq_zero masks3D_disjoint.2.1 hX
      cases hd : (depSpec z zBytesMask3D).testBit p
      · rfl
      · have := depSpecF_testBit 32 hd
        rw [hZ] at this
        exact Bool.noConfusion this
    · have hY : yBytesMask3D.testBit p = true := depSpecF_testBit 32 hpy
      have hZ : zBytesMask3D.testBit p = false := testBit_of_and_eq_zero masks3D_disjoint.2.2 hY
      cases hd : (depSpec z zBytesMask3D).testBit p
      · rfl
      · have := depSpecF_testBit 32 hd
        rw [hZ] at this
        exact Bool.noConfusion this
  rw [lor_eq_add_of_and_eq_zero _ _ hdisj, h12]

theorem interleave3_forward {k x y z : Nat} (hk : k ≤ 5) (hx : x < 2 ^ k) (hy : y < 2 ^ k)
    (hz : z < 2 ^ k) :
    interleave3 x y z < 2 ^ (3 * k) ∧
    extract_bits (interleave3 x y z) xBytesMask3D = x ∧
    extract_bits (interleave3 x y z) yBytesMask3D = y ∧
    extract_bits (interleave3 x y z) zBytesMask3D = z := by
  have hpow : ∀ w : Nat, w < 2 ^ k → w < U32 := by
    intro w hw
    rw [U32_eq]
    exact lt_of_lt_of_le hw (Nat.pow_le_pow_right (by omega) (by omega))
  have hxu := hpow x hx
  have hyu := hpow y hy
  have hzu := hpow z hz
  have hor := interleave3_or hxu hyu hzu
  obtain ⟨hcx, hcy, hcz⟩ := bitCount_mask3D_mod k hk
  have hbx : depSpec x xBytesMask3D < 2 ^ (3 * k) :=
    depSpecF_lt (3 * k) 32 x _ (by rw [hcx]; exact hx)
  have hby : depSpec y yBytesMask3D < 2 ^ (3 * k) :=
    depSpecF_lt (3 * k) 32 y _ (by rw [hcy]; exact hy)
  have hbz : depSpec z zBytesMask3D < 2 ^ (3 * k) :=
    depSpecF_lt (3 * k) 32 z _ (by rw [hcz]; exact hz)
  have hbound : interleave3 x y z < 2 ^ (3 * k) := by
    rw [hor]
    exact or_lt_two_pow (or_lt_two_pow hbx hby) hbz
  have hm32x : xBytesMask3D < 2 ^ 32 := by rw [← U32_eq]; exact masks3D_lt.1
  have hm32y : yBytesMask3D < 2 ^ 32 := by rw [← U32_eq]; exact masks3D_lt.2.1
  have hm32z : zBytesMask3D < 2 ^ 32 := by rw [← U32_eq]; exact masks3D_lt.2.2
  have hYX : yBytesMask3D &&& xBytesMask3D = 0 := by
    rw [Nat.land_comm]; exact masks3D_disjoint.1
  have hZX : zBytesMask3D &&& xBytesMask3D = 0 := by
    rw [Nat.land_comm]; exact masks3D_disjoint.2.1
  have hZY : zBytesMask3D &&& yBytesMask3D = 0 := by
    rw [Nat.land_comm]; exact masks3D_disjoint.2.2
  have hk5 : x < 2 ^ 6 ∧ y < 2 ^ 5 ∧ z < 2 ^ 5 := by
    have h6 : (2 : Nat) ^ k ≤ 2 ^ 5 := Nat.pow_le_pow_right (by omega) hk
    have h7 : (2 : Nat) ^ 5 ≤ 2 ^ 6 := by norm_num
    exact ⟨by omega, by omega, by omega⟩
  refine ⟨hbound, ?_, ?_, ?_⟩
  · rw [extract_bits_eq _ masks3D_lt.1, hor]
    unfold extSpec
    rw [extSpecF_or, extSpecF_or]
    have h1 : extSpecF 32 (depSpec x xBytesMask3D) xBytesMask3D = x % 2 ^ bitCount xBytesMask3D :=
      extSpecF_depSpecF 32 x hm32x
    have h2 : extSpecF 32 (depSpec y yBytesMask3D) xBytesMask3D = 0 := extSpec_foreign_dep hYX y
    have h3 : extSpecF 32 (depSpec z zBytesMask3D) xBytesMask3D = 0 := extSpec_foreign_dep hZX z
    rw [h1, h2, h3, bitCount_mask3D.1, Nat.mod_eq_of_lt hk5.1]
    simp
  · rw [extract_bits_eq _ masks3D_lt.2.1, hor]
    unfold extSpec
    rw [extSpecF_or, extSpecF_or]
    have h1 : extSpecF 32 (depSpec y yBytesMask3D) yBytesMask3D = y % 2 ^ bitCount yBytesMask3D :=
      extSpecF_depSpecF 32 y hm32y
    have h2 : extSpecF 32 (depSpec x xBytesMask3D) yBytesMask3D = 0 :=
      extSpec_foreign_dep masks3D_disjoint.1 x
    have h3 : extSpecF 32 (depSpec z zBytesMask3D) yBytesMask3D = 0 := extSpec_foreign_dep hZY z
    rw [h1, h2, h3, bitCount_mask3D.2.1, Nat.mod_eq_of_lt hk5.2.1]
    simp
  · rw [extract_bits_eq _ masks3D_lt.2.2, hor]
    unfold extSpec
    rw [extSpecF_or, extSpecF_or]
    have h1 : extSpecF 32 (depSpec z zBytesMask3D) zBytesMask3D = z % 2 ^ bitCount zBytesMask3D :=
      extSpecF_depSpecF 32 z hm32z
    have h2 : extSpecF 32 (depSpec x xBytesMask3D) zBytesMask3D = 0 :=
      extSpec_foreign_dep masks3D_disjoint.2.1 x
    have h3 : extSpecF 32 (depSpec y yBytesMask3D) zBytesMask3D = 0 :=
      extSpec_foreign_dep masks3D_disjoint.2.2 y
    rw [h1, h2, h3, bitCount_mask3D.2.2, Nat.mod_eq_of_lt hk5.2.2]
    simp

theorem interleave3_backward {k idx : Nat} (hk : k ≤ 5) (hidx : idx < 2 ^ (3 * k)) :
    extract_bits idx xBytesMask3D < 2 ^ k ∧ extract_bits idx yBytesMask3D < 2 ^ k ∧
    extract_bits idx zBytesMask3D < 2 ^ k ∧
    interleave3 (extract_bits idx xBytesMask3D) (extract_bits idx yBytesMask3D)
      (extract_bits idx zBytesMask3D) = idx := by
  have hi16 : idx < 2 ^ 16 :=
    lt_of_lt_of_le hidx (Nat.pow_le_pow_right (by omega) (by omega))
  have hm32x : xBytesMask3D < 2 ^ 32 := by rw [← U32_eq]; exact masks3D_lt.1
  have hm32y : yBytesMask3D < 2 ^ 32 := by rw [← U32_eq]; exact masks3D_lt.2.1
  have hm32z : zBytesMask3D < 2 ^ 32 := by rw [← U32_eq]; exact masks3D_lt.2.2
  have hex : extract_bits idx xBytesMask3D = extSpec idx xBytesMask3D :=
    extract_bits_eq idx masks3D_lt.1
  have hey : extract_bits idx yBytesMask3D = extSpec idx yBytesMask3D :=
    extract_bits_eq idx masks3D_lt.2.1
  have hez : extract_bits idx zBytesMask3D = extSpec idx zBytesMask3D :=
    extract_bits_eq idx masks3D_lt.2.2
  obtain ⟨hcx, hcy, hcz⟩ := bitCount_mask3D_mod k hk
  have hbx : extSpec idx xBytesMask3D < 2 ^ k := by
    have := extSpecF_lt (3 * k) 32 idx xBytesMask3D hidx
    rw [hcx] at this
    exact this
  have hby : extSpec idx yBytesMask3D < 2 ^ k := by
    have := extSpecF_lt (3 * k) 32 idx yBytesMask3D hidx
    rw [hcy] at this
    exact this
  have hbz : extSpec idx zBytesMask3D < 2 ^ k := by
    have := extSpecF_lt (3 * k) 32 idx zBytesMask3D hidx
    rw [hcz] at this
    exact this
  refine ⟨by rw [hex]; exact hbx, by rw [hey]; exact hby, by rw [hez]; exact hbz, ?_⟩
  rw [hex, hey, hez]
  have hpow : ∀ w : Nat, w < 2 ^ k → w < U32 := by
    intro w hw
    rw [U32_eq]
    exact lt_of_lt_of_le hw (Nat.pow_le_pow_right (by omega) (by omega))
  rw [interleave3_spec (hpow _ hbx) (hpow _ hby) (hpow _ hbz)]
  show depSpecF 32 (extSpecF 32 idx xBytesMask3D) xBytesMask3D +
    depSpecF 32 (extSpecF 32 idx yBytesMask3D) yBytesMask3D +
    depSpecF 32 (extSpecF 32 idx zBytesMask3D) zBytesMask3D = idx
  rw [depSpecF_extSpecF 32 idx hm32x, depSpecF_extSpecF 32 idx hm32y,
    depSpecF_extSpecF 32 idx hm32z,
    ← lor_eq_add_of_and_eq_zero _ _ (and_masks_disjoint masks3D_disjoint.1 idx idx)]
  have hdisj2 : (idx &&& xBytesMask3D ||| idx &&& yBytesMask3D) &&& (idx &&& zBytesMask3D) = 0 := by
    apply and_eq_zero_of_testBit
    intro p hp
    rw [Nat.testBit_or] at hp
    rw [Nat.testBit_and]
    have hz0 : zBytesMask3D.testBit p = false := by
      rcases Bool.or_eq_true _ _ |>.mp hp with hpx | hpy
      · rw [Nat.testBit_and] at hpx
        exact testBit_of_and_eq_zero masks3D_disjoint.2.1 (Bool.and_eq_true _ _ |>.mp hpx).2
      · rw [Nat.testBit_and] at hpy
        exact testBit_of_and_eq_zero masks3D_disjoint.2.2 (Bool.and_eq_true _ _ |>.mp hpy).2
    rw [hz0]
    simp
  rw [← lor_eq_add_of_and_eq_zero _ _ hdisj2, ← Nat.and_or_distrib_left,
    ← Nat.and_or_distrib_left, masks3D_union]
  have h65535 : (65535 : Nat) = 2 ^ 16 - 1 := by norm_num
  rw [h65535, Nat.and_pow_two_sub_one_eq_mod]
  exact Nat.mod_eq_of_lt hi16

/-! ### Reasoning about lists of element copies -/

theorem runCopies_cons (src : Buffers) (n : Nat) (o : CopyOp) (l : List CopyOp) (dst : Buffers) :
    runCopies src n (o :: l) dst = runCopies src n l (applyOp src n dst o) := rfl

theorem applyOp_covered (src : Buffers) (n : Nat) (dst : Buffers) (o : CopyOp) {s a : Nat}
    (h : covers n o s a) : applyOp src n dst o s a = src o.sSlice (o.soff + (a - o.doff)) := by
  unfold applyOp memcpy2
  exact if_pos h

theorem applyOp_not_covered (src : Buffers) (n : Nat) (dst : Buffers) (o : CopyOp) {s a : Nat}
    (h : ¬ covers n o s a) : applyOp src n dst o s a = dst s a := by
  unfold applyOp memcpy2
  exact if_neg h

theorem runCopies_not_covered : ∀ (ops : List CopyOp) (src : Buffers) (n : Nat) (dst : Buffers)
    (s a : Nat), (∀ op ∈ ops, ¬ covers n op s a) → runCopies src n ops dst s a = dst s a := by
  intro ops
  induction ops with
  | nil => intro src n dst s a h; rfl
  | cons o l ih =>
    intro src n dst s a h
    rw [runCopies_cons, ih src n _ s a (fun op hop => h op (List.mem_cons_of_mem o hop))]
    exact applyOp_not_covered src n dst o (h o (List.mem_cons_self o l))

theorem runCopies_covered : ∀ (ops : List CopyOp) (src : Buffers) (n : Nat) (dst : Buffers)
    (s a : Nat) (op : CopyOp), op ∈ ops → covers n op s a →
    (∀ q ∈ ops, covers n q s a → q = op) →
    runCopies src n ops dst s a = src op.sSlice (op.soff + (a - op.doff)) := by
  intro ops
  induction ops with
  | nil => intro src n dst s a op hmem; exact absurd hmem (List.not_mem_nil op)
  | cons o l ih =>
    intro src n dst s a op hmem hcov huniq
    rw [runCopies_cons]
    by_cases hco : covers n o s a
    · have ho : o = op := huniq o (List.mem_cons_self o l) hco
      by_cases hl : ∃ q ∈ l, covers n q s a
      · obtain ⟨q, hq, hqc⟩ := hl
        have hqo : q = op := huniq q (List.mem_cons_of_mem o hq) hqc
        subst hqo
        exact ih src n _ s a q hq hqc (fun r hr hrc => huniq r (List.mem_cons_of_mem o hr) hrc)
      · push_neg at hl
        rw [runCopies_not_covered l src n _ s a hl]
        rw [applyOp_covered src n dst o hco, ho]
    · have hol : op ∈ l := by
        rcases List.mem_cons.mp hmem with he | hl
        · subst he; exact absurd hcov hco
        · exact hl
      exact ih src n _ s a op hol hcov (fun r hr hrc => huniq r (List.mem_cons_of_mem o hr) hrc)

theorem runCopies_zero_size (src : Buffers) (ops : List CopyOp) (dst : Buffers) (s a : Nat) :
    runCopies src 0 ops dst s a = dst s a := by
  apply runCopies_not_covered
  intro op hop hc
  unfold covers at hc
  omega

theorem foldl_flatMap_eq (g : γ → List α) (f : β → α → β) (l : List γ) (init : β) :
    (l.flatMap g).foldl f init = l.foldl (fun b c => (g c).foldl f b) init := by
  induction l generalizing init with
  | nil => rfl
  | cons c l ih =>
    rw [List.flatMap_cons, List.foldl_append, List.foldl_cons, ih]

theorem planeTransform_eq_runCopies (sbuf : Buffers) (sSlice : Nat) (dbuf : Buffers)
    (dSlice : Nat) (ts : Bool) (bpp w h rpIn rpOut : Nat) :
    planeTransform sbuf sSlice dbuf dSlice ts bpp w h rpIn rpOut =
      runCopies sbuf bpp
        (if ts then planeEncodeOps dSlice sSlice w h bpp rpIn
          else planeDecodeOps dSlice sSlice w h bpp rpOut) dbuf := by
  cases ts
  · unfold planeTransform runCopies
    rw [if_neg Bool.false_ne_true, if_neg Bool.false_ne_true]
    unfold planeDecodeOps
    rw [List.foldl_map]
    rfl
  · unfold planeTransform runCopies
    rw [if_pos rfl, if_pos rfl]
    unfold planeEncodeOps
    rw [foldl_flatMap_eq]
    simp only [List.foldl_map]
    rfl

theorem volumeEncodeSlice_eq_runCopies (sbuf : Buffers) (z : Nat) (dbuf : Buffers)
    (metaW metaH bpp w h rowPitch : Nat) :
    volumeEncodeSlice sbuf z dbuf metaW metaH bpp w h rowPitch =
      runCopies sbuf bpp (volumeEncodeSliceOps z metaW metaH bpp w h rowPitch) dbuf := by
  simp only [volumeEncodeSlice, volumeEncodeSliceOps, runCopies, foldl_flatMap_eq,
    List.foldl_map]
  rfl

theorem volumeDecodeSlice_eq_runCopies (sbuf : Buffers) (z : Nat) (dbuf : Buffers)
    (bpp w h rowPitch : Nat) :
    volumeDecodeSlice sbuf z dbuf bpp w h rowPitch =
      runCopies sbuf bpp (volumeDecodeSliceOps z bpp w h rowPitch) dbuf := by
  simp only [volumeDecodeSlice, volumeDecodeSliceOps, runCopies, List.foldl_map]
  rfl

theorem runCopies_append (src : Buffers) (n : Nat) (l1 l2 : List CopyOp) (dst : Buffers) :
    runCopies src n (l1 ++ l2) dst = runCopies src n l2 (runCopies src n l1 dst) :=
  List.foldl_append _ _ _ _

theorem foldlE_ok (f : σ → α → Except ε σ) (g : σ → α → σ) :
    ∀ (l : List α), (∀ s, ∀ x ∈ l, f s x = Except.ok (g s x)) → ∀ (init : σ),
    foldlE f init l = Except.ok (l.foldl g init) := by
  intro l
  induction l with
  | nil => intro h init; rfl
  | cons x l ih =>
    intro h init
    show (match f init x with
      | Except.error e => Except.error e
      | Except.ok s2 => foldlE f s2 l) = _
    rw [h init x (List.mem_cons_self x l)]
    exact ih (fun s q hq => h s q (List.mem_cons_of_mem x hq)) (g init x)

/-! ### Success-path characterizations of the entry points -/

theorem StandardSwizzle_ok (img : Image) (ts : Bool) (sptr : Nat → Nat)
    (h1 : IsValid img.format = true) (h2 : IsTypeless img.format = false)
    (h3 : IsPlanar img.format = false) (h4 : IsPalettized img.format = false)
    (hp : img.pixels = some sptr) :
    StandardSwizzle img ts true =
      (HResult.sOk, withBuffers (initImages img.format img.width img.height)
        (planeTransform (fun _ a => sptr a) 0 (fun _ _ => 0) 0 ts (BitsPerPixel img.format / 8)
          (if IsCompressed img.format then (img.width + 3) / 4 else img.width)
          (if IsCompressed img.format then (img.height + 3) / 4 else img.height)
          img.rowPitch (computeRowPitch img.format img.width))) := by
  unfold StandardSwizzle
  rw [if_neg (by simp [h1]), if_neg (by simp [h2, h3, h4]), hp]
  rfl

theorem StandardSwizzleArray_ok (srcImages : Nat → Image) (nimages : Nat)
    (metadata : TexMetadata) (ts : Bool)
    (hn0 : nimages ≠ 0) (hv : IsValid metadata.format = true)
    (hml : nimages ≤ metadata.mipLevels) (hvol : IsVolumemap metadata = false)
    (ht : IsTypeless metadata.format = false) (hpl : IsPlanar metadata.format = false)
    (hpz : IsPalettized metadata.format = false)
    (hf : (srcImages 0).format = metadata.format) (hw : (srcImages 0).width = metadata.width)
    (hh : (srcImages 0).height = metadata.height)
    (hpx : ∀ i, i < nimages → (srcImages i).pixels ≠ none) :
    StandardSwizzleArray srcImages false nimages metadata ts true =
      (HResult.sOk, withBuffers (initImages (srcImages 0).format (srcImages 0).width
          (srcImages 0).height)
        ((List.range nimages).foldl (fun dst imageIndex =>
          planeTransform (fun z a => pixelsOf (srcImages z) a) imageIndex dst imageIndex ts
            (BitsPerPixel (srcImages imageIndex).format / 8)
            (if IsCompressed metadata.format then (metadata.width + 3) / 4 else metadata.width)
            (if IsCompressed metadata.format then (metadata.height + 3) / 4 else metadata.height)
            (srcImages imageIndex).rowPitch
            (computeRowPitch (srcImages 0).format (srcImages 0).width))
          (fun _ _ => 0))) := by
  simp only [StandardSwizzleArray]
  rw [if_neg (by simp [hn0, hv, Initialize2D]; omega), if_neg (by simp [hvol, ht, hpl, hpz]),
    if_neg (by simp [hf, hw, hh])]
  rw [show Initialize2D true (srcImages 0).format (srcImages 0).width (srcImages 0).height
    nimages 1 = some (initImages (srcImages 0).format (srcImages 0).width (srcImages 0).height)
    from rfl]
  dsimp only
  rw [foldlE_ok
    (arrayLoopBody srcImages
      (initImages (srcImages 0).format (srcImages 0).width (srcImages 0).height) ts
      (if IsCompressed metadata.format then (metadata.width + 3) / 4 else metadata.width)
      (if IsCompressed metadata.format then (metadata.height + 3) / 4 else metadata.height))
    (fun (dst : Buffers) (imageIndex : Nat) =>
      planeTransform (fun z a => pixelsOf (srcImages z) a) imageIndex dst imageIndex ts
        (BitsPerPixel (srcImages imageIndex).format / 8)
        (if IsCompressed metadata.format then (metadata.width + 3) / 4 else metadata.width)
        (if IsCompressed metadata.format then (metadata.height + 3) / 4 else metadata.height)
        (srcImages imageIndex).rowPitch
        (computeRowPitch (srcImages 0).format (srcImages 0).width))
    (List.range nimages)
    (by
      intro s x hx
      have hxn : x < nimages := List.mem_range.mp hx
      obtain ⟨p, hp2⟩ : ∃ p, (srcImages x).pixels = some p := by
        cases hcase : (srcImages x).pixels with
        | none => exact absurd hcase (hpx x hxn)
        | some p => exact ⟨p, rfl⟩
      unfold arrayLoopBody
      rw [hp2]
      rfl)
    (fun s a => pixelsOf (initImages (srcImages 0).format (srcImages 0).width
      (srcImages 0).height s) a)]
  rfl

theorem StandardSwizzle3D_ok (srcImages : Nat → Image) (depth : Nat)
    (metadata : TexMetadata) (ts : Bool)
    (hn0 : depth ≠ 0) (hv : IsValid metadata.format = true)
    (hdl : depth ≤ metadata.depth) (hvol : IsVolumemap metadata = false)
    (ht : IsTypeless metadata.format = false) (hpl : IsPlanar metadata.format = false)
    (hpz : IsPalettized metadata.format = false)
    (hf : (srcImages 0).format = metadata.format) (hw : (srcImages 0).width = metadata.width)
    (hh : (srcImages 0).height = metadata.height)
    (hpx : ∀ i, i < depth → (srcImages i).pixels ≠ none) :
    StandardSwizzle3D srcImages false depth metadata ts true =
      (HResult.sOk, withBuffers (initImages (srcImages 0).format (srcImages 0).width
          (srcImages 0).height)
        ((List.range depth).foldl (fun dst z =>
          if ts then
            volumeEncodeSlice (fun z2 a => pixelsOf (srcImages z2) a) z dst
              metadata.width metadata.height (BitsPerPixel (srcImages 0).format / 8)
              (if IsCompressed metadata.format then (metadata.width + 3) / 4 else metadata.width)
              (if IsCompressed metadata.format then (metadata.height + 3) / 4
                else metadata.height)
              (srcImages z).rowPitch
          else
            volumeDecodeSlice (fun z2 a => pixelsOf (srcImages z2) a) z dst
              (BitsPerPixel (srcImages 0).format / 8)
              (if IsCompressed metadata.format then (metadata.width + 3) / 4 else metadata.width)
              (if IsCompressed metadata.format then (metadata.height + 3) / 4
                else metadata.height)
              (computeRowPitch (srcImages 0).format (srcImages 0).width))
          (fun _ _ => 0))) := by
  simp only [StandardSwizzle3D]
  rw [if_neg (by simp [hn0, hv, Initialize3D]; omega), if_neg (by simp [hvol, ht, hpl, hpz]),
    if_neg (by simp [hf, hw, hh])]
  rw [show Initialize3D true (srcImages 0).format (srcImages 0).width (srcImages 0).height
    depth 1 = some (initImages (srcImages 0).format (srcImages 0).width (srcImages 0).height)
    from rfl]
  dsimp only
  rw [foldlE_ok
    (volumeLoopBody srcImages
      (initImages (srcImages 0).format (srcImages 0).width (srcImages 0).height) metadata ts
      (BitsPerPixel (srcImages 0).format / 8)
      (if IsCompressed metadata.format then (metadata.width + 3) / 4 else metadata.width)
      (if IsCompressed metadata.format then (metadata.height + 3) / 4 else metadata.height))
    (fun (dst : Buffers) (z : Nat) =>
      if ts then
        volumeEncodeSlice (fun z2 a => pixelsOf (srcImages z2) a) z dst
          metadata.width metadata.height (BitsPerPixel (srcImages 0).format / 8)
          (if IsCompressed metadata.format then (metadata.width + 3) / 4 else metadata.width)
          (if IsCompressed metadata.format then (metadata.height + 3) / 4 else metadata.height)
          (srcImages z).rowPitch
      else
        volumeDecodeSlice (fun z2 a => pixelsOf (srcImages z2) a) z dst
          (BitsPerPixel (srcImages 0).format / 8)
          (if IsCompressed metadata.format then (metadata.width + 3) / 4 else metadata.width)
          (if IsCompressed metadata.format then (metadata.height + 3) / 4 else metadata.height)
          (computeRowPitch (srcImages 0).format (srcImages 0).width))
    (List.range depth)
    (by
      intro s x hx
      have hxn : x < depth := List.mem_range.mp hx
      obtain ⟨p, hp2⟩ : ∃ p, (srcImages x).pixels = some p := by
        cases hcase : (srcImages x).pixels with
        | none => exact absurd hcase (hpx x hxn)
        | some p => exact ⟨p, rfl⟩
      unfold volumeLoopBody
      rw [hp2]
      cases ts
      · rfl
      · rfl)
    (fun s a => pixelsOf (initImages (srcImages 0).format (srcImages 0).width
      (srcImages 0).height s) a)]
  rfl

/-! ### Address arithmetic -/

theorem block_index_inj {B m1 m2 r : Nat} (hr : r < B)
    (h1 : m1 * B ≤ m2 * B + r) (h2 : m2 * B + r < m1 * B + B) : m1 = m2 := by
  have hle : m1 ≤ m2 := by
    by_contra hgt
    push_neg at hgt
    have h3 : m2 + 1 ≤ m1 := hgt
    have h4 : (m2 + 1) * B ≤ m1 * B := Nat.mul_le_mul_right B h3
    have h5 : (m2 + 1) * B = m2 * B + B := by ring
    omega
  have hge : m2 ≤ m1 := by
    by_contra hgt
    push_neg at hgt
    have h3 : m1 + 1 ≤ m2 := hgt
    have h4 : (m1 + 1) * B ≤ m2 * B := Nat.mul_le_mul_right B h3
    have h5 : (m1 + 1) * B = m1 * B + B := by ring
    omega
  omega

theorem rowmajor_inj {w B x1 y1 x2 y2 r : Nat} (hx1 : x1 < w) (hx2 : x2 < w) (hr : r < B)
    (h1 : y1 * (w * B) + x1 * B ≤ y2 * (w * B) + x2 * B + r)
    (h2 : y2 * (w * B) + x2 * B + r < y1 * (w * B) + x1 * B + B) : x1 = x2 ∧ y1 = y2 := by
  have e1 : y1 * (w * B) + x1 * B = (y1 * w + x1) * B := by ring
  have e2 : y2 * (w * B) + x2 * B = (y2 * w + x2) * B := by ring
  rw [e1, e2] at h1 h2
  have hm : y1 * w + x1 = y2 * w + x2 := block_index_inj hr h1 h2
  have hy : y1 = y2 := by
    rcases Nat.lt_trichotomy y1 y2 with hlt | heq | hgt
    · have h3 : y1 + 1 ≤ y2 := hlt
      have h4 : (y1 + 1) * w ≤ y2 * w := Nat.mul_le_mul_right w h3
      have h5 : (y1 + 1) * w = y1 * w + w := by ring
      omega
    · exact heq
    · have h3 : y2 + 1 ≤ y1 := hgt
      have h4 : (y2 + 1) * w ≤ y1 * w := Nat.mul_le_mul_right w h3
      have h5 : (y2 + 1) * w = y2 * w + w := by ring
      omega
  subst hy
  exact ⟨by omega, rfl⟩

/-! ### Round trip of the plane transform -/

theorem plane_roundtrip_core {k B : Nat} (hk : k ≤ 8) (hB : 0 < B)
    (src : Buffers) (sSl dSl1 dSl2 : Nat) (rpIn : Nat) (dbuf1 dbuf2 : Buffers)
    {x0 y0 r : Nat} (hx : x0 < 2 ^ k) (hy : y0 < 2 ^ k) (hr : r < B) :
    runCopies (runCopies src B (planeEncodeOps dSl1 sSl (2 ^ k) (2 ^ k) B rpIn) dbuf1) B
      (planeDecodeOps dSl2 dSl1 (2 ^ k) (2 ^ k) B (2 ^ k * B)) dbuf2 dSl2
      (y0 * (2 ^ k * B) + x0 * B + r) =
    src sSl (y0 * rpIn + x0 * B + r) := by
  obtain ⟨hidx0lt, hex0, hey0⟩ := interleave2_forward hk hx hy
  have hwh : (2 : Nat) ^ (2 * k) = 2 ^ k * 2 ^ k := by rw [two_mul, Nat.pow_add]
  have hidx0wh : interleave2 x0 y0 < 2 ^ k * 2 ^ k := by rw [← hwh]; exact hidx0lt
  have hmodu : ∀ {j : Nat}, j < 2 ^ (2 * k) → j % U32 = j := by
    intro j hj
    apply Nat.mod_eq_of_lt
    rw [U32_eq]
    exact lt_of_lt_of_le hj (Nat.pow_le_pow_right (by omega) (by omega))
  have hidx0u32 : interleave2 x0 y0 % U32 = interleave2 x0 y0 := hmodu hidx0lt
  have hdec := runCopies_covered
    (planeDecodeOps dSl2 dSl1 (2 ^ k) (2 ^ k) B (2 ^ k * B))
    (runCopies src B (planeEncodeOps dSl1 sSl (2 ^ k) (2 ^ k) B rpIn) dbuf1) B dbuf2
    dSl2 (y0 * (2 ^ k * B) + x0 * B + r)
    { dSlice := dSl2, doff := y0 * (2 ^ k * B) + x0 * B, sSlice := dSl1,
      soff := interleave2 x0 y0 * B }
    (by
      unfold planeDecodeOps
      rw [List.mem_map]
      refine ⟨interleave2 x0 y0, List.mem_range.mpr hidx0wh, ?_⟩
      rw [hidx0u32, hex0, hey0])
    (by
      refine ⟨rfl, ?_, ?_⟩
      · show y0 * (2 ^ k * B) + x0 * B ≤ y0 * (2 ^ k * B) + x0 * B + r
        omega
      · show y0 * (2 ^ k * B) + x0 * B + r < y0 * (2 ^ k * B) + x0 * B + B
        omega)
    (by
      intro q hq hqc
      unfold planeDecodeOps at hq
      rw [List.mem_map] at hq
      obtain ⟨idx, hidxmem, hqeq⟩ := hq
      have hidxlt : idx < 2 ^ k * 2 ^ k := List.mem_range.mp hidxmem
      have hidx2k : idx < 2 ^ (2 * k) := by rw [hwh]; exact hidxlt
      obtain ⟨hbx, hby, hrec⟩ := interleave2_backward hk hidx2k
      have hidxmod : idx % U32 = idx := hmodu hidx2k
      subst hqeq
      rw [hidxmod] at hqc ⊢
      obtain ⟨hqs, hq1, hq2⟩ := hqc
      have hinj := rowmajor_inj hbx hx hr hq1 hq2
      have hxeq : extract_bits idx xBytesMask2D = x0 := hinj.1
      have hyeq : extract_bits idx yBytesMask2D = y0 := hinj.2
      have hidx : idx = interleave2 x0 y0 := by
        rw [← hrec, hxeq, hyeq]
      rw [hxeq, hyeq, hidx])
  rw [hdec]
  have hsub : y0 * (2 ^ k * B) + x0 * B + r - (y0 * (2 ^ k * B) + x0 * B) = r := by omega
  show runCopies src B (planeEncodeOps dSl1 sSl (2 ^ k) (2 ^ k) B rpIn) dbuf1 dSl1
    (interleave2 x0 y0 * B + (y0 * (2 ^ k * B) + x0 * B + r - (y0 * (2 ^ k * B) + x0 * B))) = _
  rw [hsub]
  have henc := runCopies_covered
    (planeEncodeOps dSl1 sSl (2 ^ k) (2 ^ k) B rpIn) src B dbuf1
    dSl1 (interleave2 x0 y0 * B + r)
    { dSlice := dSl1, doff := interleave2 x0 y0 * B, sSlice := sSl,
      soff := y0 * rpIn + x0 * B }
    (by
      unfold planeEncodeOps
      rw [List.mem_flatMap]
      refine ⟨y0, List.mem_range.mpr hy, ?_⟩
      rw [List.mem_map]
      exact ⟨x0, List.mem_range.mpr hx, rfl⟩)
    (by
      refine ⟨rfl, ?_, ?_⟩
      · show interleave2 x0 y0 * B ≤ interleave2 x0 y0 * B + r
        omega
      · show interleave2 x0 y0 * B + r < interleave2 x0 y0 * B + B
        omega)
    (by
      intro q hq hqc
      unfold planeEncodeOps at hq
      rw [List.mem_flatMap] at hq
      obtain ⟨y, hymem, hq2⟩ := hq
      rw [List.mem_map] at hq2
      obtain ⟨x, hxmem, hqeq⟩ := hq2
      have hxlt : x < 2 ^ k := List.mem_range.mp hxmem
      have hylt : y < 2 ^ k := List.mem_range.mp hymem
      subst hqeq
      obtain ⟨hqs, hq1, hq2⟩ := hqc
      have hieq : interleave2 x y = interleave2 x0 y0 := block_index_inj hr hq1 hq2
      obtain ⟨hlt2, hexx, heyy⟩ := interleave2_forward hk hxlt hylt
      rw [hieq] at hexx heyy
      rw [hex0] at hexx
      rw [hey0] at heyy
      subst hexx
      subst heyy
      rw [hieq])
  rw [henc]
  show src sSl (y0 * rpIn + x0 * B + (interleave2 x0 y0 * B + r - interleave2 x0 y0 * B)) =
    src sSl (y0 * rpIn + x0 * B + r)
  congr 1
  omega

/-! ### Round trip of the volume transform -/

theorem volume_roundtrip_core {k B : Nat} (hk : k ≤ 5) (hB : 0 < B)
    (src : Buffers) (rpIn : Nat) (dbuf1 dbuf2 : Buffers)
    {x0 y0 z0 r : Nat} (hx : x0 < 2 ^ k) (hy : y0 < 2 ^ k) (hz : z0 < 2 ^ k) (hr : r < B) :
    runCopies
      (runCopies src B
        (volumeEncodeOps (2 ^ k) (2 ^ k) (2 ^ k) B (2 ^ k) (2 ^ k) rpIn) dbuf1) B
      (volumeDecodeOps (2 ^ k) B (2 ^ k) (2 ^ k) (2 ^ k * B)) dbuf2
      z0 (y0 * (2 ^ k * B) + x0 * B + r) =
    src z0 (y0 * rpIn + x0 * B + r) := by
  obtain ⟨hmlt, hex0, hey0, hez0⟩ := interleave3_forward hk hx hy hz
  have hwh0 : 0 < 2 ^ k * 2 ^ k :=
    Nat.mul_pos (Nat.pos_pow_of_pos k (by omega)) (Nat.pos_pow_of_pos k (by omega))
  have hp3 : (2 : Nat) ^ (3 * k) = 2 ^ k * (2 ^ k * 2 ^ k) := by
    rw [show 3 * k = k + (k + k) from by ring, pow_add, pow_add]
  have hmodu : ∀ {j : Nat}, j < 2 ^ (3 * k) → j % U32 = j := by
    intro j hj
    apply Nat.mod_eq_of_lt
    rw [U32_eq]
    exact lt_of_lt_of_le hj (Nat.pow_le_pow_right (by omega) (by omega))
  have hdivlt : interleave3 x0 y0 z0 / (2 ^ k * 2 ^ k) < 2 ^ k := by
    rw [Nat.div_lt_iff_lt_mul hwh0, ← hp3]
    exact hmlt
  have hmodlt : interleave3 x0 y0 z0 % (2 ^ k * 2 ^ k) < 2 ^ k * 2 ^ k :=
    Nat.mod_lt _ hwh0
  have hdiv3 : interleave3 x0 y0 z0 / (2 ^ k * 2 ^ k) < 2 ^ (3 * k) :=
    lt_of_le_of_lt (Nat.div_le_self _ _) hmlt
  have hmod3 : interleave3 x0 y0 z0 % (2 ^ k * 2 ^ k) < 2 ^ (3 * k) :=
    lt_of_le_of_lt (Nat.mod_le _ _) hmlt
  have hidx3 : interleave3 x0 y0 z0 / (2 ^ k * 2 ^ k) * 2 ^ k * 2 ^ k +
      interleave3 x0 y0 z0 % (2 ^ k * 2 ^ k) = interleave3 x0 y0 z0 := by
    rw [Nat.mul_assoc, Nat.mul_comm (interleave3 x0 y0 z0 / (2 ^ k * 2 ^ k)) (2 ^ k * 2 ^ k)]
    exact Nat.div_add_mod _ _
  have hdec := runCopies_covered
    (volumeDecodeOps (2 ^ k) B (2 ^ k) (2 ^ k) (2 ^ k * B))
    (runCopies src B (volumeEncodeOps (2 ^ k) (2 ^ k) (2 ^ k) B (2 ^ k) (2 ^ k) rpIn) dbuf1)
    B dbuf2 z0 (y0 * (2 ^ k * B) + x0 * B + r)
    { dSlice := z0, doff := y0 * (2 ^ k * B) + x0 * B,
      sSlice := interleave3 x0 y0 z0 / (2 ^ k * 2 ^ k),
      soff := interleave3 x0 y0 z0 % (2 ^ k * 2 ^ k) * B }
    (by
      unfold volumeDecodeOps
      rw [List.mem_flatMap]
      refine ⟨interleave3 x0 y0 z0 / (2 ^ k * 2 ^ k), List.mem_range.mpr hdivlt, ?_⟩
      unfold volumeDecodeSliceOps
      rw [List.mem_map]
      refine ⟨interleave3 x0 y0 z0 % (2 ^ k * 2 ^ k), List.mem_range.mpr hmodlt, ?_⟩
      rw [hidx3, hmodu hmlt, hex0, hey0, hez0])
    (by
      refine ⟨rfl, ?_, ?_⟩
      · show y0 * (2 ^ k * B) + x0 * B ≤ y0 * (2 ^ k * B) + x0 * B + r
        omega
      · show y0 * (2 ^ k * B) + x0 * B + r < y0 * (2 ^ k * B) + x0 * B + B
        omega)
    (by
      intro q hq hqc
      unfold volumeDecodeOps at hq
      rw [List.mem_flatMap] at hq
      obtain ⟨z, hzmem, hq2⟩ := hq
      unfold volumeDecodeSliceOps at hq2
      rw [List.mem_map] at hq2
      obtain ⟨idx, hidxmem, hqeq⟩ := hq2
      have hzlt : z < 2 ^ k := List.mem_range.mp hzmem
      have hidxlt : idx < 2 ^ k * 2 ^ k := List.mem_range.mp hidxmem
      have hjlt : z * 2 ^ k * 2 ^ k + idx < 2 ^ (3 * k) := by
        have h1 : (z + 1) * (2 ^ k * 2 ^ k) ≤ 2 ^ k * (2 ^ k * 2 ^ k) :=
          Nat.mul_le_mul_right _ hzlt
        have h2 : z * 2 ^ k * 2 ^ k = z * (2 ^ k * 2 ^ k) := by ring
        have h3 : (z + 1) * (2 ^ k * 2 ^ k) = z * (2 ^ k * 2 ^ k) + 2 ^ k * 2 ^ k := by ring
        rw [hp3]
        omega
      have hmodj : (z * 2 ^ k * 2 ^ k + idx) % U32 = z * 2 ^ k * 2 ^ k + idx := hmodu hjlt
      obtain ⟨hbx, hby, hbz, hrec⟩ := interleave3_backward hk hjlt
      subst hqeq
      rw [hmodj] at hqc ⊢
      obtain ⟨hqs, hq1, hq2⟩ := hqc
      have hinj := rowmajor_inj hbx hx hr hq1 hq2
      have hzeq : extract_bits (z * 2 ^ k * 2 ^ k + idx) zBytesMask3D = z0 := hqs.symm
      have hj : z * 2 ^ k * 2 ^ k + idx = interleave3 x0 y0 z0 := by
        rw [← hrec, hinj.1, hinj.2, hzeq]
      have hzv : interleave3 x0 y0 z0 / (2 ^ k * 2 ^ k) = z := by
        rw [← hj, Nat.mul_assoc, Nat.mul_comm z (2 ^ k * 2 ^ k),
          Nat.mul_add_div hwh0, Nat.div_eq_of_lt hidxlt]
        omega
      have hiv : interleave3 x0 y0 z0 % (2 ^ k * 2 ^ k) = idx := by
        rw [← hj, Nat.mul_assoc, Nat.mul_comm z (2 ^ k * 2 ^ k),
          Nat.mul_add_mod, Nat.mod_eq_of_lt hidxlt]
      rw [hinj.1, hinj.2, hzeq, hzv, hiv])
  rw [hdec]
  have hsub : y0 * (2 ^ k * B) + x0 * B + r - (y0 * (2 ^ k * B) + x0 * B) = r := by omega
  show runCopies src B (volumeEncodeOps (2 ^ k) (2 ^ k) (2 ^ k) B (2 ^ k) (2 ^ k) rpIn) dbuf1
    (interleave3 x0 y0 z0 / (2 ^ k * 2 ^ k))
    (interleave3 x0 y0 z0 % (2 ^ k * 2 ^ k) * B +
      (y0 * (2 ^ k * B) + x0 * B + r - (y0 * (2 ^ k * B) + x0 * B))) = _
  rw [hsub]
  have henc := runCopies_covered
    (volumeEncodeOps (2 ^ k) (2 ^ k) (2 ^ k) B (2 ^ k) (2 ^ k) rpIn) src B dbuf1
    (interleave3 x0 y0 z0 / (2 ^ k * 2 ^ k))
    (interleave3 x0 y0 z0 % (2 ^ k * 2 ^ k) * B + r)
    { dSlice := interleave3 x0 y0 z0 / (2 ^ k * 2 ^ k),
      doff := interleave3 x0 y0 z0 % (2 ^ k * 2 ^ k) * B,
      sSlice := z0, soff := y0 * rpIn + x0 * B }
    (by
      unfold volumeEncodeOps
      rw [List.mem_flatMap]
      refine ⟨z0, List.mem_range.mpr hz, ?_⟩
      unfold volumeEncodeSliceOps
      rw [List.mem_flatMap]
      refine ⟨y0, List.mem_range.mpr hy, ?_⟩
      rw [List.mem_map]
      refine ⟨x0, List.mem_range.mpr hx, ?_⟩
      rw [hmodu hdiv3, hmodu hmod3])
    (by
      refine ⟨rfl, ?_, ?_⟩
      · show interleave3 x0 y0 z0 % (2 ^ k * 2 ^ k) * B ≤
          interleave3 x0 y0 z0 % (2 ^ k * 2 ^ k) * B + r
        omega
      · show interleave3 x0 y0 z0 % (2 ^ k * 2 ^ k) * B + r <
          interleave3 x0 y0 z0 % (2 ^ k * 2 ^ k) * B + B
        omega)
    (by
      intro q hq hqc
      unfold volumeEncodeOps at hq
      rw [List.mem_flatMap] at hq
      obtain ⟨z, hzmem, hq2⟩ := hq
      unfold volumeEncodeSliceOps at hq2
      rw [List.mem_flatMap] at hq2
      obtain ⟨y, hymem, hq3⟩ := hq2
      rw [List.mem_map] at hq3
      obtain ⟨x, hxmem, hqeq⟩ := hq3
      have hxlt : x < 2 ^ k := List.mem_range.mp hxmem
      have hylt : y < 2 ^ k := List.mem_range.mp hymem
      have hzlt : z < 2 ^ k := List.mem_range.mp hzmem
      obtain ⟨hm2lt, hex2, hey2, hez2⟩ := interleave3_forward hk hxlt hylt hzlt
      have hd2 : interleave3 x y z / (2 ^ k * 2 ^ k) % U32 =
          interleave3 x y z / (2 ^ k * 2 ^ k) :=
        hmodu (lt_of_le_of_lt (Nat.div_le_self _ _) hm2lt)
      have hm2 : interleave3 x y z % (2 ^ k * 2 ^ k) % U32 =
          interleave3 x y z % (2 ^ k * 2 ^ k) :=
        hmodu (lt_of_le_of_lt (Nat.mod_le _ _) hm2lt)
      subst hqeq
      rw [hd2, hm2] at hqc ⊢
      obtain ⟨hqs, hq1, hq2⟩ := hqc
      have hmodeq : interleave3 x y z % (2 ^ k * 2 ^ k) =
          interleave3 x0 y0 z0 % (2 ^ k * 2 ^ k) := block_index_inj hr hq1 hq2
      have hdiveq : interleave3 x0 y0 z0 / (2 ^ k * 2 ^ k) =
          interleave3 x y z / (2 ^ k * 2 ^ k) := hqs
      have hmeq : interleave3 x y z = interleave3 x0 y0 z0 := by
        have e1 := Nat.div_add_mod (interleave3 x y z) (2 ^ k * 2 ^ k)
        have e2 := Nat.div_add_mod (interleave3 x0 y0 z0) (2 ^ k * 2 ^ k)
        rw [← hdiveq] at e1
        rw [hmodeq] at e1
        omega
      rw [hmeq] at hex2 hey2 hez2
      have hxe : x = x0 := by rw [← hex2, hex0]
      have hye : y = y0 := by rw [← hey2, hey0]
      have hze : z = z0 := by rw [← hez2, hez0]
      subst hxe
      subst hye
      subst hze
      rw [hmeq])
  rw [henc]
  show src z0 (y0 * rpIn + x0 * B +
      (interleave3 x0 y0 z0 % (2 ^ k * 2 ^ k) * B + r -
        interleave3 x0 y0 z0 % (2 ^ k * 2 ^ k) * B)) =
    src z0 (y0 * rpIn + x0 * B + r)
  congr 1
  omega

/-! ### Further copy-list reasoning used by the claim theorems -/

theorem applyOp_dst_agree (src : Buffers) (n : Nat) (dst1 dst2 : Buffers) (o : CopyOp)
    {s a : Nat} (h : dst1 s a = dst2 s a) : applyOp src n dst1 o s a = applyOp src n dst2 o s a := by
  unfold applyOp memcpy2
  by_cases hc : s = o.dSlice ∧ o.doff ≤ a ∧ a < o.doff + n
  · rw [if_pos hc, if_pos hc]
  · rw [if_neg hc, if_neg hc]
    exact h

theorem runCopies_dst_agree : ∀ (ops : List CopyOp) (src : Buffers) (n : Nat)
    (dst1 dst2 : Buffers) (s a : Nat), dst1 s a = dst2 s a →
    runCopies src n ops dst1 s a = runCopies src n ops dst2 s a := by
  intro ops
  induction ops with
  | nil => intro src n dst1 dst2 s a h; exact h
  | cons o l ih =>
    intro src n dst1 dst2 s a h
    rw [runCopies_cons, runCopies_cons]
    exact ih src n _ _ s a (applyOp_dst_agree src n dst1 dst2 o h)

theorem runCopies_src_congr : ∀ (ops : List CopyOp) (src1 src2 : Buffers) (n : Nat)
    (dst : Buffers) (s a : Nat), (∀ op ∈ ops, ∀ a2, src1 op.sSlice a2 = src2 op.sSlice a2) →
    runCopies src1 n ops dst s a = runCopies src2 n ops dst s a := by
  intro ops
  induction ops with
  | nil => intro src1 src2 n dst s a h; rfl
  | cons o l ih =>
    intro src1 src2 n dst s a h
    rw [runCopies_cons, runCopies_cons]
    have hstep : applyOp src1 n dst o s a = applyOp src2 n dst o s a := by
      unfold applyOp memcpy2
      by_cases hc : s = o.dSlice ∧ o.doff ≤ a ∧ a < o.doff + n
      · rw [if_pos hc, if_pos hc, h o (List.mem_cons_self o l)]
      · rw [if_neg hc, if_neg hc]
    calc runCopies src1 n l (applyOp src1 n dst o) s a
        = runCopies src2 n l (applyOp src1 n dst o) s a :=
          ih src1 src2 n _ s a (fun op hop => h op (List.mem_cons_of_mem o hop))
      _ = runCopies src2 n l (applyOp src2 n dst o) s a :=
          runCopies_dst_agree l src2 n _ _ s a hstep

theorem runCopies_flatMap_slice : ∀ (l : List Nat) (g : Nat → List CopyOp) (src : Buffers)
    (n : Nat) (dst : Buffers) (s a : Nat), l.Nodup → s ∈ l →
    (∀ i ∈ l, ∀ op ∈ g i, op.dSlice = i) →
    runCopies src n (l.flatMap g) dst s a = runCopies src n (g s) dst s a := by
  intro l
  induction l with
  | nil => intro g src n dst s a hnd hs; exact absurd hs (List.not_mem_nil s)
  | cons i l ih =>
    intro g src n dst s a hnd hs hall
    rw [List.flatMap_cons, runCopies_append]
    rcases List.mem_cons.mp hs with he | hmem
    · subst he
      have hnone : ∀ op ∈ l.flatMap g, ¬ covers n op s a := by
        intro op hop hc
        rw [List.mem_flatMap] at hop
        obtain ⟨j, hj, hopj⟩ := hop
        have hd : op.dSlice = j := hall j (List.mem_cons_of_mem s hj) op hopj
        have hsj : s = j := by rw [hc.1, hd]
        rw [hsj] at hnd
        exact (List.nodup_cons.mp hnd).1 hj
      exact runCopies_not_covered (l.flatMap g) src n _ s a hnone
    · have hne : s ≠ i := by
        intro he
        rw [he] at hmem
        exact (List.nodup_cons.mp hnd).1 hmem
      have hskip : runCopies src n (g i) dst s a = dst s a := by
        apply runCopies_not_covered
        intro op hop hc
        have hd : op.dSlice = i := hall i (List.mem_cons_self i l) op hop
        exact hne (by rw [hc.1, hd])
      calc runCopies src n (l.flatMap g) (runCopies src n (g i) dst) s a
          = runCopies src n (l.flatMap g) dst s a :=
            runCopies_dst_agree _ src n _ _ s a hskip
        _ = runCopies src n (g s) dst s a :=
          ih g src n dst s a (List.nodup_cons.mp hnd).2 hmem
            (fun j hj => hall j (List.mem_cons_of_mem i hj))

theorem planeEncodeOps_fields (d s w h bpp rp : Nat) :
    ∀ op ∈ planeEncodeOps d s w h bpp rp, op.dSlice = d ∧ op.sSlice = s := by
  intro op hop
  unfold planeEncodeOps at hop
  rw [List.mem_flatMap] at hop
  obtain ⟨y, hy, hop2⟩ := hop
  rw [List.mem_map] at hop2
  obtain ⟨x, hx, heq⟩ := hop2
  subst heq
  exact ⟨rfl, rfl⟩

theorem planeDecodeOps_fields (d s w h bpp rpo : Nat) :
    ∀ op ∈ planeDecodeOps d s w h bpp rpo, op.dSlice = d ∧ op.sSlice = s := by
  intro op hop
  unfold planeDecodeOps at hop
  rw [List.mem_map] at hop
  obtain ⟨idx, hidx, heq⟩ := hop
  subst heq
  exact ⟨rfl, rfl⟩

theorem foldl_fixed {α β : Type} (g : α → β → α) : ∀ (l : List β) (init : α),
    (∀ b ∈ l, ∀ x, g x b = x) → l.foldl g init = init := by
  intro l
  induction l with
  | nil => intro init h; rfl
  | cons b l ih =>
    intro init h
    rw [List.foldl_cons, h b (List.mem_cons_self b l) init]
    exact ih init (fun c hc => h c (List.mem_cons_of_mem b hc))

/-- Decompose a row-major byte address within a w-by-h-by-bpp plane. -/
theorem addr_decomp {W B a : Nat} (hB : 0 < B) (ha : a < W * (W * B)) :
    ∃ x y r, x < W ∧ y < W ∧ r < B ∧ a = y * (W * B) + x * B + r := by
  have hWB : 0 < W * B := by
    rcases Nat.eq_zero_or_pos W with h0 | hW
    · subst h0; simp at ha
    · exact Nat.mul_pos hW hB
  refine ⟨a % (W * B) / B, a / (W * B), a % (W * B) % B, ?_, ?_, ?_, ?_⟩
  · rw [Nat.div_lt_iff_lt_mul hB]
    exact Nat.mod_lt _ hWB
  · rw [Nat.div_lt_iff_lt_mul hWB]
    exact ha
  · exact Nat.mod_lt _ hB
  · have e1 := Nat.div_add_mod a (W * B)
    have e2 := Nat.div_add_mod (a % (W * B)) B
    have e3 : a / (W * B) * (W * B) = W * B * (a / (W * B)) := Nat.mul_comm _ _
    have e4 : a % (W * B) / B * B = B * (a % (W * B) / B) := Nat.mul_comm _ _
    omega

theorem volumeEncode_foldl_eq (sbuf : Buffers) (dbuf : Buffers)
    (depth metaW metaH bpp w h rp : Nat) :
    (List.range depth).foldl (fun dst z =>
      volumeEncodeSlice sbuf z dst metaW metaH bpp w h rp) dbuf =
    runCopies sbuf bpp (volumeEncodeOps depth metaW metaH bpp w h rp) dbuf := by
  have h1 : (List.range depth).foldl (fun dst z =>
      volumeEncodeSlice sbuf z dst metaW metaH bpp w h rp) dbuf =
    (List.range depth).foldl (fun dst z =>
      runCopies sbuf bpp (volumeEncodeSliceOps z metaW metaH bpp w h rp) dst) dbuf :=
    List.foldl_ext _ _ dbuf (fun dst z _ => volumeEncodeSlice_eq_runCopies sbuf z dst _ _ _ _ _ _)
  rw [h1]
  unfold volumeEncodeOps runCopies
  rw [foldl_flatMap_eq]

theorem volumeDecode_foldl_eq (sbuf : Buffers) (dbuf : Buffers) (depth bpp w h rp : Nat) :
    (List.range depth).foldl (fun dst z =>
      volumeDecodeSlice sbuf z dst bpp w h rp) dbuf =
    runCopies sbuf bpp (volumeDecodeOps depth bpp w h rp) dbuf := by
  have h1 : (List.range depth).foldl (fun dst z =>
      volumeDecodeSlice sbuf z dst bpp w h rp) dbuf =
    (List.range depth).foldl (fun dst z =>
      runCopies sbuf bpp (volumeDecodeSliceOps z bpp w h rp) dst) dbuf :=
    List.foldl_ext _ _ dbuf (fun dst z _ => volumeDecodeSlice_eq_runCopies sbuf z dst _ _ _ _)
  rw [h1]
  unfold volumeDecodeOps runCopies
  rw [foldl_flatMap_eq]

theorem arrayPlane_foldl_eq (sbuf : Buffers) (ts : Bool) (n w h bpp rpo : Nat)
    (rp : Nat → Nat) (dbuf : Buffers) :
    (List.range n).foldl (fun dst i =>
      planeTransform sbuf i dst i ts bpp w h (rp i) rpo) dbuf =
    runCopies sbuf bpp ((List.range n).flatMap (fun i =>
      if ts then planeEncodeOps i i w h bpp (rp i) else planeDecodeOps i i w h bpp rpo)) dbuf := by
  have h1 : (List.range n).foldl (fun dst i =>
      planeTransform sbuf i dst i ts bpp w h (rp i) rpo) dbuf =
    (List.range n).foldl (fun dst i =>
      runCopies sbuf bpp (if ts then planeEncodeOps i i w h bpp (rp i)
        else planeDecodeOps i i w h bpp rpo) dst) dbuf :=
    List.foldl_ext _ _ dbuf (fun dst i _ => planeTransform_eq_runCopies sbuf i dst i ts _ _ _ _ _)
  rw [h1]
  unfold runCopies
  rw [foldl_flatMap_eq]

/-! ### Claim theorems -/

/-- C2: for every 16-bit value v and each of the five documented masks,
extract_bits (deposit_bits v mask) mask equals v AND ((1 <<< popcount mask) - 1):
the loops deposit the low bits of v into the set positions of the mask and
extract them back. -/
theorem C2_extract_inverts_deposit (v m : Nat) (hv : v < 2 ^ 16)
    (hm : m = xBytesMask2D ∨ m = yBytesMask2D ∨ m = xBytesMask3D ∨ m = yBytesMask3D ∨
      m = zBytesMask3D) :
    extract_bits (deposit_bits v m) m = v &&& ((1 <<< popcount m) - 1) := by
  have key : ∀ (m2 c : Nat), m2 < U32 → bitCount m2 = c → popcount m2 = c →
      extract_bits (deposit_bits v m2) m2 = v &&& ((1 <<< popcount m2) - 1) := by
    intro m2 c hu hbc hpc
    rw [deposit_bits_eq v hu, extract_bits_eq _ hu]
    have hm32 : m2 < 2 ^ 32 := by rw [← U32_eq]; exact hu
    show extSpecF 32 (depSpecF 32 v m2) m2 = _
    rw [extSpecF_depSpecF 32 v hm32, hbc, hpc, Nat.one_shiftLeft,
      Nat.and_pow_two_sub_one_eq_mod]
  rcases hm with h | h | h | h | h
  · subst h; exact key _ 8 masks2D_lt.1 bitCount_mask2D.1 (by decide!)
  · subst h; exact key _ 8 masks2D_lt.2 bitCount_mask2D.2 (by decide!)
  · subst h; exact key _ 6 masks3D_lt.1 bitCount_mask3D.1 (by decide!)
  · subst h; exact key _ 5 masks3D_lt.2.1 bitCount_mask3D.2.1 (by decide!)
  · subst h; exact key _ 5 masks3D_lt.2.2 bitCount_mask3D.2.2 (by decide!)

/-- Witness for C2 at v = 3 and the 2D x mask. -/
theorem C2_extract_inverts_deposit_witness :
    extract_bits (deposit_bits 3 xBytesMask2D) xBytesMask2D =
      3 &&& ((1 <<< popcount xBytesMask2D) - 1) :=
  C2_extract_inverts_deposit 3 xBytesMask2D (by norm_num) (Or.inl rfl)

/-- C3 (amended): in the three 3D axis masks of the source, x takes every
third bit starting at bit 0, y every third bit starting at bit 2, and z
every third bit starting at bit 1 (the spec has the y and z phases
swapped); all three masks are 16 bits wide. -/
theorem C3_mask3D_phases : ∀ i : Nat,
    (xBytesMask3D.testBit i = true ↔ i % 3 = 0 ∧ i < 16) ∧
    (yBytesMask3D.testBit i = true ↔ i % 3 = 2 ∧ i < 16) ∧
    (zBytesMask3D.testBit i = true ↔ i % 3 = 1 ∧ i < 16) := by
  intro i
  by_cases h : i < 16
  · interval_cases i <;> exact ⟨by decide, by decide, by decide⟩
  · have h16 : (16 : Nat) ≤ i := Nat.le_of_not_lt h
    have hb : ∀ m : Nat, m < 2 ^ 16 → m.testBit i = false := by
      intro m hm
      apply Nat.testBit_lt_two_pow
      exact lt_of_lt_of_le hm (Nat.pow_le_pow_right (by omega) h16)
    refine ⟨?_, ?_, ?_⟩
    · rw [hb _ (by decide)]; simp [h]
    · rw [hb _ (by decide)]; simp [h]
    · rw [hb _ (by decide)]; simp [h]

/-- Counterexample to C3 as stated: the y mask does not contain bit 1
(bit 1 belongs to the z mask), and the z mask does not contain bit 2
(bit 2 belongs to the y mask). -/
theorem C3_mask3D_phases_cex :
    yBytesMask3D.testBit 1 = false ∧ zBytesMask3D.testBit 1 = true ∧
    zBytesMask3D.testBit 2 = false ∧ yBytesMask3D.testBit 2 = true := by decide

/-- C4: contrary to spec and claim, StandardSwizzle3D rejects metadata that
declares a volume shape (eNotSupported) and accepts the same call when the
volume flag is cleared, all other preconditions holding. -/
theorem C4_volumemap_inverted :
    (StandardSwizzle3D (fun _ => oneImg) false 1 mdVolume true true).1 =
      HResult.eNotSupported ∧
    (StandardSwizzle3D (fun _ => oneImg) false 1 mdFlat true true).1 = HResult.sOk :=
  ⟨rfl, rfl⟩

/-- C5: a failed destination construction is surfaced as eOutOfMemory only by
the plane entry point; the array and volume entry points never test hr and
return eInvalidArg (via the GetImages null check) instead of the
construction failure code. -/
theorem C5_alloc_failure_codes :
    (StandardSwizzle c1img true false).1 = HResult.eOutOfMemory ∧
    (StandardSwizzleArray (fun _ => oneImg) false 1 mdFlat true false).1 =
      HResult.eInvalidArg ∧
    (StandardSwizzle3D (fun _ => oneImg) false 1 mdFlat true false).1 =
      HResult.eInvalidArg :=
  ⟨rfl, rfl, rfl⟩

/-- C7: over a 16 by 16 plane the 256 encode swizzle indices are a
permutation of 0..255. -/
theorem C7_encode_indices_perm :
    List.Perm ((List.range 16).flatMap (fun y => (List.range 16).map (fun x => interleave2 x y)))
      (List.range 256) := by
  have hsub : List.range 256 ⊆
      (List.range 16).flatMap (fun y => (List.range 16).map (fun x => interleave2 x y)) := by
    intro m hm
    have hm256 : m < 2 ^ (2 * 4) := by
      have := List.mem_range.mp hm
      norm_num
      omega
    obtain ⟨hbx, hby, hrec⟩ := interleave2_backward (by norm_num) hm256
    rw [List.mem_flatMap]
    refine ⟨extract_bits m yBytesMask2D, List.mem_range.mpr (by norm_num at hby ⊢; omega), ?_⟩
    rw [List.mem_map]
    exact ⟨extract_bits m xBytesMask2D, List.mem_range.mpr (by norm_num at hbx ⊢; omega), hrec⟩
  have hsp : List.Subperm (List.range 256)
      ((List.range 16).flatMap (fun y => (List.range 16).map (fun x => interleave2 x y))) :=
    (List.nodup_range 256).subperm hsub
  have hlen : ((List.range 16).flatMap
      (fun y => (List.range 16).map (fun x => interleave2 x y))).length ≤
      (List.range 256).length := by
    rw [List.length_range]
    decide!
  exact (hsp.perm_of_length_le hlen).symm

/-- C8: on a 6 by 5 compressed plane the encode loop runs over the rounded
2 by 2 block grid and performs exactly 4 copies, but each copy moves
BitsPerPixel/8 = 0 bytes, not the 8-byte block size of the format. -/
theorem C8_compressed_grid :
    StandardSwizzle ⟨fmtBC1, 6, 5, 12, some c1src⟩ true true =
      (HResult.sOk, withBuffers (initImages fmtBC1 6 5)
        (runCopies (fun _ a => c1src a) 0 (planeEncodeOps 0 0 2 2 0 12) (fun _ _ => 0))) ∧
    (planeEncodeOps 0 0 2 2 0 12).length = 4 ∧
    BitsPerPixel fmtBC1 / 8 = 0 ∧ bytesPerBlock fmtBC1 = 8 := by
  refine ⟨?_, rfl, rfl, rfl⟩
  rw [StandardSwizzle_ok ⟨fmtBC1, 6, 5, 12, some c1src⟩ true c1src rfl rfl rfl rfl rfl,
    planeTransform_eq_runCopies]
  rfl

/-- C6: rejection cases at the public interface: a valid but typeless format
fails with eNotSupported, a null source pixel buffer fails with ePointer,
and an array call whose first slice width disagrees with the metadata width
fails with eFail. -/
theorem C6_rejection_cases :
    (∀ (img : Image) (ts allocOk : Bool), IsValid img.format = true →
      IsTypeless img.format = true →
      (StandardSwizzle img ts allocOk).1 = HResult.eNotSupported) ∧
    (∀ (img : Image) (ts : Bool), IsValid img.format = true →
      IsTypeless img.format = false → IsPlanar img.format = false →
      IsPalettized img.format = false → img.pixels = none →
      (StandardSwizzle img ts true).1 = HResult.ePointer) ∧
    (∀ (srcImages : Nat → Image) (nimages : Nat) (metadata : TexMetadata) (ts : Bool),
      nimages ≠ 0 → IsValid metadata.format = true → nimages ≤ metadata.mipLevels →
      IsVolumemap metadata = false → IsTypeless metadata.format = false →
      IsPlanar metadata.format = false → IsPalettized metadata.format = false →
      (srcImages 0).width ≠ metadata.width →
      (StandardSwizzleArray srcImages false nimages metadata ts true).1 = HResult.eFail) := by
  refine ⟨?_, ?_, ?_⟩
  · intro img ts allocOk h1 h2
    unfold StandardSwizzle
    rw [if_neg (by simp [h1]), if_pos (by simp [h2])]
  · intro img ts h1 h2 h3 h4 hp
    unfold StandardSwizzle
    rw [if_neg (by simp [h1]), if_neg (by simp [h2, h3, h4])]
    rw [show Initialize2D true img.format img.width img.height 1 1 =
      some (initImages img.format img.width img.height) from rfl]
    dsimp only
    rw [hp]
  · intro srcImages nimages metadata ts hn0 hv hml hvol ht hpl hpz hw
    simp only [StandardSwizzleArray]
    rw [if_neg (by simp [hn0, hv, Initialize2D]; omega),
      if_neg (by simp [hvol, ht, hpl, hpz]),
      if_pos (Or.inr (Or.inl hw))]

/-- Witness for C6: a typeless 1 by 1 image, a 1 by 1 image with a null
buffer, and a 3-wide array slice against 1-wide metadata. -/
theorem C6_rejection_cases_witness :
    (StandardSwizzle ⟨fmtTypeless, 1, 1, 1, some zeroBuf⟩ true true).1 =
      HResult.eNotSupported ∧
    (StandardSwizzle ⟨fmtU8, 1, 1, 1, none⟩ true true).1 = HResult.ePointer ∧
    (StandardSwizzleArray (fun _ => ⟨fmtU8, 3, 1, 3, some zeroBuf⟩) false 1 mdFlat
      true true).1 = HResult.eFail :=
  ⟨C6_rejection_cases.1 ⟨fmtTypeless, 1, 1, 1, some zeroBuf⟩ true true rfl rfl,
   C6_rejection_cases.2.1 ⟨fmtU8, 1, 1, 1, none⟩ true rfl rfl rfl rfl rfl,
   C6_rejection_cases.2.2 (fun _ => ⟨fmtU8, 3, 1, 3, some zeroBuf⟩) 1 mdFlat true
     (by omega) rfl (by decide) rfl rfl rfl rfl (by decide)⟩

/-- C9: the volume encode loop writes each source pixel (x, y, z) to
destination slice morton / (width * height) at within-plane offset
morton mod (width * height) times the element size (the uint32 reductions
are vacuous on a cube of side 2^k, k at most 5), and on the 4 by 4 by 4
volume exactly 16 of the 64 copies land in each of the 4 destination
slices. -/
theorem C9_morton_split (k bpp rp : Nat) (hk : k ≤ 5) :
    volumeEncodeOps (2 ^ k) (2 ^ k) (2 ^ k) bpp (2 ^ k) (2 ^ k) rp =
      (List.range (2 ^ k)).flatMap (fun z => (List.range (2 ^ k)).flatMap (fun y =>
        (List.range (2 ^ k)).map (fun x =>
          { dSlice := interleave3 x y z / (2 ^ k * 2 ^ k),
            doff := interleave3 x y z % (2 ^ k * 2 ^ k) * bpp,
            sSlice := z, soff := y * rp + x * bpp }))) ∧
    (volumeEncodeOps 4 4 4 1 4 4 4).countP (fun op => op.dSlice == 0) = 16 ∧
    (volumeEncodeOps 4 4 4 1 4 4 4).countP (fun op => op.dSlice == 1) = 16 ∧
    (volumeEncodeOps 4 4 4 1 4 4 4).countP (fun op => op.dSlice == 2) = 16 ∧
    (volumeEncodeOps 4 4 4 1 4 4 4).countP (fun op => op.dSlice == 3) = 16 := by
  refine ⟨?_, by decide!, by decide!, by decide!, by decide!⟩
  unfold volumeEncodeOps
  apply List.flatMap_congr
  intro z hz
  unfold volumeEncodeSliceOps
  apply List.flatMap_congr
  intro y hy
  apply List.map_congr_left
  intro x hx
  have hxl : x < 2 ^ k := List.mem_range.mp hx
  have hyl : y < 2 ^ k := List.mem_range.mp hy
  have hzl : z < 2 ^ k := List.mem_range.mp hz
  obtain ⟨hlt, _, _, _⟩ := interleave3_forward hk hxl hyl hzl
  have hmodu : ∀ {j : Nat}, j < 2 ^ (3 * k) → j % U32 = j := by
    intro j hj
    apply Nat.mod_eq_of_lt
    rw [U32_eq]
    exact lt_of_lt_of_le hj (Nat.pow_le_pow_right (by omega) (by omega))
  rw [hmodu (lt_of_le_of_lt (Nat.div_le_self _ _) hlt),
    hmodu (lt_of_le_of_lt (Nat.mod_le _ _) hlt)]

/-- Witness for C9 on the 2 by 2 by 2 cube. -/
theorem C9_morton_split_witness :
    volumeEncodeOps (2 ^ 1) (2 ^ 1) (2 ^ 1) 1 (2 ^ 1) (2 ^ 1) 2 =
      (List.range (2 ^ 1)).flatMap (fun z => (List.range (2 ^ 1)).flatMap (fun y =>
        (List.range (2 ^ 1)).map (fun x =>
          { dSlice := interleave3 x y z / (2 ^ 1 * 2 ^ 1),
            doff := interleave3 x y z % (2 ^ 1 * 2 ^ 1) * 1,
            sSlice := z, soff := y * 2 + x * 1 }))) :=
  (C9_morton_split 1 1 2 (by norm_num)).1

/-- C10: the per-element size is BitsPerPixel/8 with integer division, so a
format reported below 8 bits per pixel gives element size 0: every copy
moves nothing, each entry point leaves the zero-initialized destination
unchanged and still returns sOk. -/
theorem C10_zero_element_size :
    (∀ (img : Image) (ts : Bool) (sptr : Nat → Nat), BitsPerPixel img.format < 8 →
      IsValid img.format = true → IsTypeless img.format = false →
      IsPlanar img.format = false → IsPalettized img.format = false →
      img.pixels = some sptr →
      StandardSwizzle img ts true =
        (HResult.sOk, withBuffers (initImages img.format img.width img.height)
          (fun _ _ => 0))) ∧
    (∀ (srcImages : Nat → Image) (nimages : Nat) (metadata : TexMetadata) (ts : Bool),
      nimages ≠ 0 → IsValid metadata.format = true → nimages ≤ metadata.mipLevels →
      IsVolumemap metadata = false → IsTypeless metadata.format = false →
      IsPlanar metadata.format = false → IsPalettized metadata.format = false →
      (srcImages 0).format = metadata.format → (srcImages 0).width = metadata.width →
      (srcImages 0).height = metadata.height →
      (∀ i, i < nimages → (srcImages i).pixels ≠ none) →
      (∀ i, i < nimages → BitsPerPixel (srcImages i).format < 8) →
      StandardSwizzleArray srcImages false nimages metadata ts true =
        (HResult.sOk, withBuffers (initImages (srcImages 0).format (srcImages 0).width
          (srcImages 0).height) (fun _ _ => 0))) ∧
    (∀ (srcImages : Nat → Image) (depth : Nat) (metadata : TexMetadata) (ts : Bool),
      depth ≠ 0 → IsValid metadata.format = true → depth ≤ metadata.depth →
      IsVolumemap metadata = false → IsTypeless metadata.format = false →
      IsPlanar metadata.format = false → IsPalettized metadata.format = false →
      (srcImages 0).format = metadata.format → (srcImages 0).width = metadata.width →
      (srcImages 0).height = metadata.height →
      (∀ i, i < depth → (srcImages i).pixels ≠ none) →
      BitsPerPixel (srcImages 0).format < 8 →
      StandardSwizzle3D srcImages false depth metadata ts true =
        (HResult.sOk, withBuffers (initImages (srcImages 0).format (srcImages 0).width
          (srcImages 0).height) (fun _ _ => 0))) := by
  refine ⟨?_, ?_, ?_⟩
  · intro img ts sptr hlt h1 h2 h3 h4 hp
    rw [StandardSwizzle_ok img ts sptr h1 h2 h3 h4 hp, planeTransform_eq_runCopies,
      Nat.div_eq_of_lt hlt]
    have hbuf : runCopies (fun _ a => sptr a) 0
        (if ts then planeEncodeOps 0 0 (if IsCompressed img.format then (img.width + 3) / 4
            else img.width) (if IsCompressed img.format then (img.height + 3) / 4
            else img.height) 0 img.rowPitch
          else planeDecodeOps 0 0 (if IsCompressed img.format then (img.width + 3) / 4
            else img.width) (if IsCompressed img.format then (img.height + 3) / 4
            else img.height) 0 (computeRowPitch img.format img.width)) (fun _ _ => 0) =
        (fun _ _ => 0) :=
      funext fun s => funext fun a => runCopies_zero_size _ _ _ s a
    rw [hbuf]
  · intro srcImages nimages metadata ts hn0 hv hml hvol ht hpl hpz hf hw hh hpx hsz
    rw [StandardSwizzleArray_ok srcImages nimages metadata ts hn0 hv hml hvol ht hpl hpz
      hf hw hh hpx]
    have hbuf : (List.range nimages).foldl (fun dst imageIndex =>
        planeTransform (fun z a => pixelsOf (srcImages z) a) imageIndex dst imageIndex ts
          (BitsPerPixel (srcImages imageIndex).format / 8)
          (if IsCompressed metadata.format then (metadata.width + 3) / 4 else metadata.width)
          (if IsCompressed metadata.format then (metadata.height + 3) / 4
            else metadata.height)
          (srcImages imageIndex).rowPitch
          (computeRowPitch (srcImages 0).format (srcImages 0).width)) (fun _ _ => 0) =
        (fun _ _ => 0) := by
      apply foldl_fixed
      intro i hi x
      rw [planeTransform_eq_runCopies,
        Nat.div_eq_of_lt (hsz i (List.mem_range.mp hi))]
      exact funext fun s => funext fun a => runCopies_zero_size _ _ _ s a
    rw [hbuf]
  · intro srcImages depth metadata ts hn0 hv hdl hvol ht hpl hpz hf hw hh hpx hlt
    rw [StandardSwizzle3D_ok srcImages depth metadata ts hn0 hv hdl hvol ht hpl hpz
      hf hw hh hpx]
    have hbuf : (List.range depth).foldl (fun dst z =>
        if ts then
          volumeEncodeSlice (fun z2 a => pixelsOf (srcImages z2) a) z dst
            metadata.width metadata.height (BitsPerPixel (srcImages 0).format / 8)
            (if IsCompressed metadata.format then (metadata.width + 3) / 4
              else metadata.width)
            (if IsCompressed metadata.format then (metadata.height + 3) / 4
              else metadata.height)
            (srcImages z).rowPitch
        else
          volumeDecodeSlice (fun z2 a => pixelsOf (srcImages z2) a) z dst
            (BitsPerPixel (srcImages 0).format / 8)
            (if IsCompressed metadata.format then (metadata.width + 3) / 4
              else metadata.width)
            (if IsCompressed metadata.format then (metadata.height + 3) / 4
              else metadata.height)
            (computeRowPitch (srcImages 0).format (srcImages 0).width)) (fun _ _ => 0) =
        (fun _ _ => 0) := by
      apply foldl_fixed
      intro z hz x
      cases ts
      · rw [if_neg Bool.false_ne_true, volumeDecodeSlice_eq_runCopies,
          Nat.div_eq_of_lt hlt]
        exact funext fun s => funext fun a => runCopies_zero_size _ _ _ s a
      · rw [if_pos rfl, volumeEncodeSlice_eq_runCopies, Nat.div_eq_of_lt hlt]
        exact funext fun s => funext fun a => runCopies_zero_size _ _ _ s a
    rw [hbuf]

/-- Witness for C10 on a one-block BC1 texture through all three entry
points. -/
theorem C10_zero_element_size_witness :
    StandardSwizzle bc1Img true true =
      (HResult.sOk, withBuffers (initImages bc1Img.format bc1Img.width bc1Img.height)
        (fun _ _ => 0)) ∧
    StandardSwizzleArray (fun _ => bc1Img) false 1 mdBC1 true true =
      (HResult.sOk, withBuffers (initImages ((fun _ => bc1Img) 0).format
        ((fun _ => bc1Img) 0).width ((fun _ => bc1Img) 0).height) (fun _ _ => 0)) ∧
    StandardSwizzle3D (fun _ => bc1Img) false 1 mdBC1 true true =
      (HResult.sOk, withBuffers (initImages ((fun _ => bc1Img) 0).format
        ((fun _ => bc1Img) 0).width ((fun _ => bc1Img) 0).height) (fun _ _ => 0)) :=
  ⟨C10_zero_element_size.1 bc1Img true zeroBuf (by decide) rfl rfl rfl rfl rfl,
   C10_zero_element_size.2.1 (fun _ => bc1Img) 1 mdBC1 true (by omega) rfl (by decide)
     rfl rfl rfl rfl rfl rfl rfl (fun i hi h => Option.noConfusion h)
     (fun i hi => (by decide : BitsPerPixel bc1Img.format < 8)),
   C10_zero_element_size.2.2 (fun _ => bc1Img) 1 mdBC1 true (by omega) rfl (by decide)
     rfl rfl rfl rfl rfl rfl rfl (fun i hi h => Option.noConfusion h) (by decide)⟩

/-! ### Entry points on canonically shaped inputs -/

theorem arrayPlane_foldl_eq_const (sbuf : Buffers) (ts : Bool) (n w h bpp rpi rpo : Nat)
    (dbuf : Buffers) :
    (List.range n).foldl (fun dst i =>
      planeTransform sbuf i dst i ts bpp w h rpi rpo) dbuf =
    runCopies sbuf bpp ((List.range n).flatMap (fun i =>
      if ts then planeEncodeOps i i w h bpp rpi
      else planeDecodeOps i i w h bpp rpo)) dbuf :=
  arrayPlane_foldl_eq sbuf ts n w h bpp rpo (fun _ => rpi) dbuf

theorem planeSwizzle_shaped {k B : Nat} {f : FormatInfo} (hfv : IsValid f = true)
    (hft : IsTypeless f = false) (hfp : IsPlanar f = false) (hfz : IsPalettized f = false)
    (hfc : IsCompressed f = false) (hbpp8 : BitsPerPixel f / 8 = B)
    (img : Image) (S : Nat → Nat)
    (himg : img = ⟨f, 2 ^ k, 2 ^ k, 2 ^ k * B, some (fun a => S a)⟩) (ts : Bool) :
    StandardSwizzle img ts true =
      (HResult.sOk, withBuffers (initImages f (2 ^ k) (2 ^ k))
        (runCopies (fun _ a => S a) B
          (if ts then planeEncodeOps 0 0 (2 ^ k) (2 ^ k) B (2 ^ k * B)
           else planeDecodeOps 0 0 (2 ^ k) (2 ^ k) B (2 ^ k * B)) (fun _ _ => 0))) := by
  subst himg
  have hcrp : computeRowPitch f (2 ^ k) = 2 ^ k * B := by
    unfold computeRowPitch BitsPerPixel
    unfold BitsPerPixel at hbpp8
    rw [hbpp8]
  rw [StandardSwizzle_ok ⟨f, 2 ^ k, 2 ^ k, 2 ^ k * B, some (fun a => S a)⟩ ts S hfv hft hfp
    hfz rfl, planeTransform_eq_runCopies]
  dsimp only
  rw [hfc, if_neg Bool.false_ne_true, hbpp8, hcrp]

theorem arraySwizzle_shaped {k B n : Nat} {f : FormatInfo} (hfv : IsValid f = true)
    (hft : IsTypeless f = false) (hfp : IsPlanar f = false) (hfz : IsPalettized f = false)
    (hfc : IsCompressed f = false) (hbpp8 : BitsPerPixel f / 8 = B)
    (imgs : Nat → Image) (S : Buffers)
    (himg : ∀ i, imgs i = ⟨f, 2 ^ k, 2 ^ k, 2 ^ k * B, some (fun a => S i a)⟩)
    (metadata : TexMetadata) (ts : Bool) (hn0 : n ≠ 0) (hmf : metadata.format = f)
    (hmw : metadata.width = 2 ^ k) (hmh : metadata.height = 2 ^ k)
    (hml : n ≤ metadata.mipLevels) (hvol : IsVolumemap metadata = false) :
    StandardSwizzleArray imgs false n metadata ts true =
      (HResult.sOk, withBuffers (initImages f (2 ^ k) (2 ^ k))
        (runCopies S B ((List.range n).flatMap (fun i =>
          if ts then planeEncodeOps i i (2 ^ k) (2 ^ k) B (2 ^ k * B)
          else planeDecodeOps i i (2 ^ k) (2 ^ k) B (2 ^ k * B))) (fun _ _ => 0))) := by
  have hcrp : computeRowPitch f (2 ^ k) = 2 ^ k * B := by
    unfold computeRowPitch BitsPerPixel
    unfold BitsPerPixel at hbpp8
    rw [hbpp8]
  have hWH : (if IsCompressed f = true then (2 ^ k + 3) / 4 else 2 ^ k) = 2 ^ k := by
    rw [hfc, if_neg Bool.false_ne_true]
  have hv : IsValid metadata.format = true := by rw [hmf]; exact hfv
  have ht : IsTypeless metadata.format = false := by rw [hmf]; exact hft
  have hpl : IsPlanar metadata.format = false := by rw [hmf]; exact hfp
  have hpz : IsPalettized metadata.format = false := by rw [hmf]; exact hfz
  have hfeq : (imgs 0).format = metadata.format := by rw [himg 0, hmf]
  have hweq : (imgs 0).width = metadata.width := by rw [himg 0, hmw]
  have hheq : (imgs 0).height = metadata.height := by rw [himg 0, hmh]
  have hpx : ∀ i, i < n → (imgs i).pixels ≠ none := by
    intro i hi
    rw [himg i]
    intro h
    exact Option.noConfusion h
  rw [StandardSwizzleArray_ok imgs n metadata ts hn0 hv hml hvol ht hpl hpz hfeq hweq
    hheq hpx]
  simp only [himg, pixelsOf, Option.getD_some, hmf, hmw, hmh, hbpp8, hcrp, hWH]
  rw [arrayPlane_foldl_eq_const]

theorem volumeSwizzle_shaped {k B : Nat} {f : FormatInfo} (hfv : IsValid f = true)
    (hft : IsTypeless f = false) (hfp : IsPlanar f = false) (hfz : IsPalettized f = false)
    (hfc : IsCompressed f = false) (hbpp8 : BitsPerPixel f / 8 = B)
    (imgs : Nat → Image) (S : Buffers)
    (himg : ∀ i, imgs i = ⟨f, 2 ^ k, 2 ^ k, 2 ^ k * B, some (fun a => S i a)⟩)
    (metadata : TexMetadata) (ts : Bool) (hmf : metadata.format = f)
    (hmw : metadata.width = 2 ^ k) (hmh : metadata.height = 2 ^ k)
    (hdep : 2 ^ k ≤ metadata.depth) (hvol : IsVolumemap metadata = false) :
    StandardSwizzle3D imgs false (2 ^ k) metadata ts true =
      (HResult.sOk, withBuffers (initImages f (2 ^ k) (2 ^ k))
        (if ts then
          runCopies S B (volumeEncodeOps (2 ^ k) (2 ^ k) (2 ^ k) B (2 ^ k) (2 ^ k)
            (2 ^ k * B)) (fun _ _ => 0)
         else
          runCopies S B (volumeDecodeOps (2 ^ k) B (2 ^ k) (2 ^ k) (2 ^ k * B))
            (fun _ _ => 0))) := by
  have hcrp : computeRowPitch f (2 ^ k) = 2 ^ k * B := by
    unfold computeRowPitch BitsPerPixel
    unfold BitsPerPixel at hbpp8
    rw [hbpp8]
  have hWH : (if IsCompressed f = true then (2 ^ k + 3) / 4 else 2 ^ k) = 2 ^ k := by
    rw [hfc, if_neg Bool.false_ne_true]
  have hv : IsValid metadata.format = true := by rw [hmf]; exact hfv
  have ht : IsTypeless metadata.format = false := by rw [hmf]; exact hft
  have hpl : IsPlanar metadata.format = false := by rw [hmf]; exact hfp
  have hpz : IsPalettized metadata.format = false := by rw [hmf]; exact hfz
  have hfeq : (imgs 0).format = metadata.format := by rw [himg 0, hmf]
  have hweq : (imgs 0).width = metadata.width := by rw [himg 0, hmw]
  have hheq : (imgs 0).height = metadata.height := by rw [himg 0, hmh]
  have hpx : ∀ i, i < 2 ^ k → (imgs i).pixels ≠ none := by
    intro i hi
    rw [himg i]
    intro h
    exact Option.noConfusion h
  rw [StandardSwizzle3D_ok imgs (2 ^ k) metadata ts (Nat.two_pow_pos k).ne' hv hdep hvol
    ht hpl hpz hfeq hweq hheq hpx]
  simp only [himg, pixelsOf, Option.getD_some, hmf, hmw, hmh, hbpp8, hcrp, hWH]
  cases ts
  · rw [show (fun (dst : Buffers) (z : Nat) =>
        if false = true then
          volumeEncodeSlice (fun z2 a => S z2 a) z dst (2 ^ k) (2 ^ k) B (2 ^ k) (2 ^ k)
            (2 ^ k * B)
        else volumeDecodeSlice (fun z2 a => S z2 a) z dst B (2 ^ k) (2 ^ k) (2 ^ k * B)) =
      (fun (dst : Buffers) (z : Nat) =>
        volumeDecodeSlice (fun z2 a => S z2 a) z dst B (2 ^ k) (2 ^ k) (2 ^ k * B))
      from funext fun dst => funext fun z => if_neg Bool.false_ne_true]
    rw [show ((List.range (2 ^ k)).foldl (fun (dst : Buffers) (z : Nat) =>
        volumeDecodeSlice (fun z2 a => S z2 a) z dst B (2 ^ k) (2 ^ k) (2 ^ k * B))
          (fun _ _ => 0) : Buffers) =
      runCopies (fun z2 a => S z2 a) B (volumeDecodeOps (2 ^ k) B (2 ^ k) (2 ^ k)
        (2 ^ k * B)) (fun _ _ => 0)
      from volumeDecode_foldl_eq (fun z2 a => S z2 a) (fun _ _ => 0) (2 ^ k) B (2 ^ k)
        (2 ^ k) (2 ^ k * B)]
    rfl
  · rw [show (fun (dst : Buffers) (z : Nat) =>
        if true = true then
          volumeEncodeSlice (fun z2 a => S z2 a) z dst (2 ^ k) (2 ^ k) B (2 ^ k) (2 ^ k)
            (2 ^ k * B)
        else volumeDecodeSlice (fun z2 a => S z2 a) z dst B (2 ^ k) (2 ^ k) (2 ^ k * B)) =
      (fun (dst : Buffers) (z : Nat) =>
        volumeEncodeSlice (fun z2 a => S z2 a) z dst (2 ^ k) (2 ^ k) B (2 ^ k) (2 ^ k)
          (2 ^ k * B))
      from funext fun dst => funext fun z => if_pos rfl]
    rw [show ((List.range (2 ^ k)).foldl (fun (dst : Buffers) (z : Nat) =>
        volumeEncodeSlice (fun z2 a => S z2 a) z dst (2 ^ k) (2 ^ k) B (2 ^ k) (2 ^ k)
          (2 ^ k * B)) (fun _ _ => 0) : Buffers) =
      runCopies (fun z2 a => S z2 a) B (volumeEncodeOps (2 ^ k) (2 ^ k) (2 ^ k) B (2 ^ k)
        (2 ^ k) (2 ^ k * B)) (fun _ _ => 0)
      from volumeEncode_foldl_eq (fun z2 a => S z2 a) (fun _ _ => 0) (2 ^ k) (2 ^ k) (2 ^ k)
        B (2 ^ k) (2 ^ k) (2 ^ k * B)]
    rfl

/-- C1 (amended): for an uncompressed format of 8*B bits per pixel on square
power-of-two extents with canonical row pitch, decoding the encoded texture
reproduces the source byte for byte, independently for the plane, array and
volume entry points (the volume entry point requires the metadata volume
flag clear, per the inverted check, and side at most 2^5). -/
theorem C1_roundtrip_square_pow2 (B : Nat) (f : FormatInfo) (hB : 0 < B)
    (hfv : IsValid f = true) (hft : IsTypeless f = false) (hfp : IsPlanar f = false)
    (hfz : IsPalettized f = false) (hfc : IsCompressed f = false)
    (hbpp : BitsPerPixel f = 8 * B) :
    (∀ (k : Nat), k ≤ 8 → ∀ (sptr : Nat → Nat) (a : Nat), a < 2 ^ k * (2 ^ k * B) →
      pixelsOf ((StandardSwizzle ((StandardSwizzle
          ⟨f, 2 ^ k, 2 ^ k, 2 ^ k * B, some sptr⟩ true true).2 0) false true).2 0) a =
        sptr a) ∧
    (∀ (k n : Nat), k ≤ 8 → n ≠ 0 → ∀ (metadata : TexMetadata) (sptr : Nat → Nat → Nat),
      metadata.format = f → metadata.width = 2 ^ k → metadata.height = 2 ^ k →
      n ≤ metadata.mipLevels → IsVolumemap metadata = false →
      ∀ (s0 a : Nat), s0 < n → a < 2 ^ k * (2 ^ k * B) →
      pixelsOf ((StandardSwizzleArray ((StandardSwizzleArray
          (fun i => ⟨f, 2 ^ k, 2 ^ k, 2 ^ k * B, some (sptr i)⟩)
          false n metadata true true).2) false n metadata false true).2 s0) a =
        sptr s0 a) ∧
    (∀ (k : Nat), k ≤ 5 → ∀ (metadata : TexMetadata) (sptr : Nat → Nat → Nat),
      metadata.format = f → metadata.width = 2 ^ k → metadata.height = 2 ^ k →
      2 ^ k ≤ metadata.depth → IsVolumemap metadata = false →
      ∀ (s0 a : Nat), s0 < 2 ^ k → a < 2 ^ k * (2 ^ k * B) →
      pixelsOf ((StandardSwizzle3D ((StandardSwizzle3D
          (fun z => ⟨f, 2 ^ k, 2 ^ k, 2 ^ k * B, some (sptr z)⟩)
          false (2 ^ k) metadata true true).2) false (2 ^ k) metadata false true).2 s0) a =
        sptr s0 a) := by
  have hbpp8 : BitsPerPixel f / 8 = B := by
    rw [hbpp]
    exact Nat.mul_div_cancel_left B (by norm_num)
  refine ⟨?_, ?_, ?_⟩
  · intro k hk sptr a ha
    obtain ⟨x0, y0, r, hx, hy, hr, haeq⟩ := addr_decomp hB ha
    subst haeq
    have hcrp : computeRowPitch f (2 ^ k) = 2 ^ k * B := by
      unfold computeRowPitch
      rw [hbpp8]
    have henc := planeSwizzle_shaped (k := k) hfv hft hfp hfz hfc hbpp8
      ⟨f, 2 ^ k, 2 ^ k, 2 ^ k * B, some sptr⟩ sptr rfl true
    rw [if_pos rfl] at henc
    rw [henc]
    have hdec := planeSwizzle_shaped (k := k) hfv hft hfp hfz hfc hbpp8
      ((HResult.sOk, withBuffers (initImages f (2 ^ k) (2 ^ k))
        (runCopies (fun _ a2 => sptr a2) B
          (planeEncodeOps 0 0 (2 ^ k) (2 ^ k) B (2 ^ k * B)) (fun _ _ => 0))).2 0)
      (fun a2 => runCopies (fun _ a3 => sptr a3) B
        (planeEncodeOps 0 0 (2 ^ k) (2 ^ k) B (2 ^ k * B)) (fun _ _ => 0) 0 a2)
      (by
        show (⟨f, 2 ^ k, 2 ^ k, computeRowPitch f (2 ^ k), some (fun a2 =>
          runCopies (fun _ a3 => sptr a3) B
            (planeEncodeOps 0 0 (2 ^ k) (2 ^ k) B (2 ^ k * B)) (fun _ _ => 0) 0 a2)⟩ :
          Image) = _
        rw [hcrp])
      false
    rw [if_neg Bool.false_ne_true] at hdec
    rw [hdec]
    have core : runCopies (fun _ a2 => runCopies (fun _ a3 => sptr a3) B
        (planeEncodeOps 0 0 (2 ^ k) (2 ^ k) B (2 ^ k * B)) (fun _ _ => 0) 0 a2) B
        (planeDecodeOps 0 0 (2 ^ k) (2 ^ k) B (2 ^ k * B)) (fun _ _ => 0) 0
        (y0 * (2 ^ k * B) + x0 * B + r) = sptr (y0 * (2 ^ k * B) + x0 * B + r) := by
      rw [runCopies_src_congr (planeDecodeOps 0 0 (2 ^ k) (2 ^ k) B (2 ^ k * B))
        (fun _ a2 => runCopies (fun _ a3 => sptr a3) B
          (planeEncodeOps 0 0 (2 ^ k) (2 ^ k) B (2 ^ k * B)) (fun _ _ => 0) 0 a2)
        (runCopies (fun _ a3 => sptr a3) B
          (planeEncodeOps 0 0 (2 ^ k) (2 ^ k) B (2 ^ k * B)) (fun _ _ => 0)) B
        (fun _ _ => 0) 0 (y0 * (2 ^ k * B) + x0 * B + r)
        (fun op hop a2 => by
          rw [(planeDecodeOps_fields 0 0 (2 ^ k) (2 ^ k) B (2 ^ k * B) op hop).2])]
      exact plane_roundtrip_core hk hB (fun _ a3 => sptr a3) 0 0 0 (2 ^ k * B)
        (fun _ _ => 0) (fun _ _ => 0) hx hy hr
    exact core
  · intro k n hk hn0 metadata sptr hmf hmw hmh hml hvol s0 a hs0 ha
    obtain ⟨x0, y0, r, hx, hy, hr, haeq⟩ := addr_decomp hB ha
    subst haeq
    have hcrp : computeRowPitch f (2 ^ k) = 2 ^ k * B := by
      unfold computeRowPitch
      rw [hbpp8]
    have henc := arraySwizzle_shaped (k := k) (n := n) hfv hft hfp hfz hfc hbpp8
      (fun i => ⟨f, 2 ^ k, 2 ^ k, 2 ^ k * B, some (sptr i)⟩) (fun i a => sptr i a)
      (fun i => rfl) metadata true hn0 hmf hmw hmh hml hvol
    have hlist1 : (List.range n).flatMap (fun i =>
        if true = true then planeEncodeOps i i (2 ^ k) (2 ^ k) B (2 ^ k * B)
        else planeDecodeOps i i (2 ^ k) (2 ^ k) B (2 ^ k * B)) =
      (List.range n).flatMap (fun i => planeEncodeOps i i (2 ^ k) (2 ^ k) B (2 ^ k * B)) :=
      List.flatMap_congr (fun i hi => if_pos rfl)
    rw [hlist1] at henc
    rw [henc]
    have hdec := arraySwizzle_shaped (k := k) (n := n) hfv hft hfp hfz hfc hbpp8
      ((HResult.sOk, withBuffers (initImages f (2 ^ k) (2 ^ k))
        (runCopies (fun i a2 => sptr i a2) B ((List.range n).flatMap (fun i =>
          planeEncodeOps i i (2 ^ k) (2 ^ k) B (2 ^ k * B))) (fun _ _ => 0))).2)
      (runCopies (fun i a2 => sptr i a2) B ((List.range n).flatMap (fun i =>
        planeEncodeOps i i (2 ^ k) (2 ^ k) B (2 ^ k * B))) (fun _ _ => 0))
      (fun i => by
        show (⟨f, 2 ^ k, 2 ^ k, computeRowPitch f (2 ^ k), some (fun a2 =>
          runCopies (fun i2 a3 => sptr i2 a3) B ((List.range n).flatMap (fun i2 =>
            planeEncodeOps i2 i2 (2 ^ k) (2 ^ k) B (2 ^ k * B))) (fun _ _ => 0) i a2)⟩ :
          Image) = _
        rw [hcrp])
      metadata false hn0 hmf hmw hmh hml hvol
    have hlist2 : (List.range n).flatMap (fun i =>
        if false = true then planeEncodeOps i i (2 ^ k) (2 ^ k) B (2 ^ k * B)
        else planeDecodeOps i i (2 ^ k) (2 ^ k) B (2 ^ k * B)) =
      (List.range n).flatMap (fun i => planeDecodeOps i i (2 ^ k) (2 ^ k) B (2 ^ k * B)) :=
      List.flatMap_congr (fun i hi => if_neg Bool.false_ne_true)
    rw [hlist2] at hdec
    rw [hdec]
    show runCopies (runCopies (fun i a2 => sptr i a2) B ((List.range n).flatMap (fun i =>
        planeEncodeOps i i (2 ^ k) (2 ^ k) B (2 ^ k * B))) (fun _ _ => 0)) B
      ((List.range n).flatMap (fun i => planeDecodeOps i i (2 ^ k) (2 ^ k) B (2 ^ k * B)))
      (fun _ _ => 0) s0 (y0 * (2 ^ k * B) + x0 * B + r) =
      sptr s0 (y0 * (2 ^ k * B) + x0 * B + r)
    rw [runCopies_flatMap_slice (List.range n)
      (fun i => planeDecodeOps i i (2 ^ k) (2 ^ k) B (2 ^ k * B))
      (runCopies (fun i a2 => sptr i a2) B ((List.range n).flatMap (fun i =>
        planeEncodeOps i i (2 ^ k) (2 ^ k) B (2 ^ k * B))) (fun _ _ => 0)) B
      (fun _ _ => 0) s0 (y0 * (2 ^ k * B) + x0 * B + r) (List.nodup_range n)
      (List.mem_range.mpr hs0)
      (fun i hi op hop => (planeDecodeOps_fields i i (2 ^ k) (2 ^ k) B (2 ^ k * B) op hop).1)]
    rw [runCopies_src_congr (planeDecodeOps s0 s0 (2 ^ k) (2 ^ k) B (2 ^ k * B))
      (runCopies (fun i a2 => sptr i a2) B ((List.range n).flatMap (fun i =>
        planeEncodeOps i i (2 ^ k) (2 ^ k) B (2 ^ k * B))) (fun _ _ => 0))
      (runCopies (fun i a2 => sptr i a2) B
        (planeEncodeOps s0 s0 (2 ^ k) (2 ^ k) B (2 ^ k * B)) (fun _ _ => 0)) B
      (fun _ _ => 0) s0 (y0 * (2 ^ k * B) + x0 * B + r)
      (fun op hop a2 => by
        rw [(planeDecodeOps_fields s0 s0 (2 ^ k) (2 ^ k) B (2 ^ k * B) op hop).2]
        exact runCopies_flatMap_slice (List.range n)
          (fun i => planeEncodeOps i i (2 ^ k) (2 ^ k) B (2 ^ k * B))
          (fun i a3 => sptr i a3) B (fun _ _ => 0) s0 a2 (List.nodup_range n)
          (List.mem_range.mpr hs0)
          (fun i hi op2 hop2 =>
            (planeEncodeOps_fields i i (2 ^ k) (2 ^ k) B (2 ^ k * B) op2 hop2).1))]
    exact plane_roundtrip_core hk hB (fun i a3 => sptr i a3) s0 s0 s0 (2 ^ k * B)
      (fun _ _ => 0) (fun _ _ => 0) hx hy hr
  · intro k hk metadata sptr hmf hmw hmh hdep hvol s0 a hs0 ha
    obtain ⟨x0, y0, r, hx, hy, hr, haeq⟩ := addr_decomp hB ha
    subst haeq
    have hcrp : computeRowPitch f (2 ^ k) = 2 ^ k * B := by
      unfold computeRowPitch
      rw [hbpp8]
    have henc := volumeSwizzle_shaped (k := k) hfv hft hfp hfz hfc hbpp8
      (fun z => ⟨f, 2 ^ k, 2 ^ k, 2 ^ k * B, some (sptr z)⟩) (fun z a => sptr z a)
      (fun z => rfl) metadata true hmf hmw hmh hdep hvol
    rw [if_pos rfl] at henc
    rw [henc]
    have hdec := volumeSwizzle_shaped (k := k) hfv hft hfp hfz hfc hbpp8
      ((HResult.sOk, withBuffers (initImages f (2 ^ k) (2 ^ k))
        (runCopies (fun z a2 => sptr z a2) B
          (volumeEncodeOps (2 ^ k) (2 ^ k) (2 ^ k) B (2 ^ k) (2 ^ k) (2 ^ k * B))
          (fun _ _ => 0))).2)
      (runCopies (fun z a2 => sptr z a2) B
        (volumeEncodeOps (2 ^ k) (2 ^ k) (2 ^ k) B (2 ^ k) (2 ^ k) (2 ^ k * B))
        (fun _ _ => 0))
      (fun z => by
        show (⟨f, 2 ^ k, 2 ^ k, computeRowPitch f (2 ^ k), some (fun a2 =>
          runCopies (fun z2 a3 => sptr z2 a3) B
            (volumeEncodeOps (2 ^ k) (2 ^ k) (2 ^ k) B (2 ^ k) (2 ^ k) (2 ^ k * B))
            (fun _ _ => 0) z a2)⟩ : Image) = _
        rw [hcrp])
      metadata false hmf hmw hmh hdep hvol
    rw [if_neg Bool.false_ne_true] at hdec
    rw [hdec]
    show runCopies (runCopies (fun z a2 => sptr z a2) B
        (volumeEncodeOps (2 ^ k) (2 ^ k) (2 ^ k) B (2 ^ k) (2 ^ k) (2 ^ k * B))
        (fun _ _ => 0)) B (volumeDecodeOps (2 ^ k) B (2 ^ k) (2 ^ k) (2 ^ k * B))
      (fun _ _ => 0) s0 (y0 * (2 ^ k * B) + x0 * B + r) =
      sptr s0 (y0 * (2 ^ k * B) + x0 * B + r)
    exact volume_roundtrip_core hk hB (fun z a2 => sptr z a2) (2 ^ k * B)
      (fun _ _ => 0) (fun _ _ => 0) hx hy hs0 hr

/-- Witness for C1 on a 1 by 1 plane, array and volume with B = 1. -/
theorem C1_roundtrip_square_pow2_witness :
    pixelsOf ((StandardSwizzle ((StandardSwizzle
        ⟨fmtU8, 2 ^ 0, 2 ^ 0, 2 ^ 0 * 1, some zeroBuf⟩ true true).2 0) false true).2 0) 0 =
      zeroBuf 0 ∧
    pixelsOf ((StandardSwizzleArray ((StandardSwizzleArray
        (fun i => ⟨fmtU8, 2 ^ 0, 2 ^ 0, 2 ^ 0 * 1, some ((fun _ => zeroBuf) i)⟩)
        false 1 mdFlat true true).2) false 1 mdFlat false true).2 0) 0 =
      (fun _ => zeroBuf) 0 0 ∧
    pixelsOf ((StandardSwizzle3D ((StandardSwizzle3D
        (fun z => ⟨fmtU8, 2 ^ 0, 2 ^ 0, 2 ^ 0 * 1, some ((fun _ => zeroBuf) z)⟩)
        false (2 ^ 0) mdFlat true true).2) false (2 ^ 0) mdFlat false true).2 0) 0 =
      (fun _ => zeroBuf) 0 0 :=
  ⟨(C1_roundtrip_square_pow2 1 fmtU8 (by decide) rfl rfl rfl rfl rfl rfl).1 0
      (by decide) zeroBuf 0 (by decide),
   (C1_roundtrip_square_pow2 1 fmtU8 (by decide) rfl rfl rfl rfl rfl rfl).2.1 0 1
      (by decide) (by decide) mdFlat (fun _ => zeroBuf) rfl (by decide) (by decide)
      (by decide) rfl 0 0 (by decide) (by decide),
   (C1_roundtrip_square_pow2 1 fmtU8 (by decide) rfl rfl rfl rfl rfl rfl).2.2 0
      (by decide) mdFlat (fun _ => zeroBuf) rfl (by decide) (by decide) (by decide) rfl
      0 0 (by decide) (by decide)⟩

/-- Counterexample to C1 as stated: for the valid uncompressed format on a
non-square 2 by 1 plane both calls succeed, yet the decoded byte at address
1 is 0 while the source byte is 7. -/
theorem C1_roundtrip_square_pow2_cex :
    (StandardSwizzle c1img true true).1 = HResult.sOk ∧
    (StandardSwizzle ((StandardSwizzle c1img true true).2 0) false true).1 = HResult.sOk ∧
    pixelsOf ((StandardSwizzle ((StandardSwizzle c1img true true).2 0) false true).2 0) 1 =
      0 ∧
    c1src 1 = 7 := by
  refine ⟨rfl, rfl, ?_, rfl⟩
  decide!
